import Mathlib

/-!
# Verification of the cookiejar package

A shallow embedding of the `cookiejar` Go package (jar.go, cookie.go and the
public-suffix code) together with proofs about its behaviour.

Modelling conventions, used throughout:

* Go `time.Time` values are modelled as `Nat` (nanoseconds); the zero value of
  `time.Time` is modelled as `0`, so `t.IsZero()` becomes `t = 0` and
  `a.Before(b)` becomes `a < b`.  Real clock readings are always positive.
  A single operation of the jar reads the clock through an explicit `now`
  parameter; the (at most nanoseconds apart) repeated `time.Now()` calls
  inside one operation are modelled by the same instant.
* Go strings are byte arrays; the cookie data handled by the jar (names,
  values, hosts, paths) is ASCII, where byte indexing, byte length and
  unicode-character indexing agree.  We model strings as Lean `String`
  and index/measure them through their character list `String.data`.
* Fallible Go functions returning `(T, error)` become `Except`-valued
  functions; in-place mutation of the cookie slice becomes explicit state
  passing (each operation returns the new store).
-/

deriving instance DecidableEq for Except

namespace CookieJar

/-! ## String helpers (Go `strings` package semantics on `List Char`) -/

/-- Go `strings.HasPrefix` on character lists. -/
def goStartsWith : List Char → List Char → Bool
  | _, [] => true
  | [], _ :: _ => false
  | c :: cs, p :: ps => c = p && goStartsWith cs ps

/-- Go `strings.HasSuffix` on character lists. -/
def goEndsWith (s suf : List Char) : Bool :=
  goStartsWith s.reverse suf.reverse

/-- Go `strings.Split(s, sep)` for a one-character separator.
`splitOnChar sep []` is `[[]]`, matching Go's `Split("", ".") = [""]`. -/
def splitOnChar (sep : Char) : List Char → List (List Char)
  | [] => [[]]
  | c :: cs =>
    let r := splitOnChar sep cs
    if c = sep then [] :: r
    else
      match r with
      | [] => [[c]]
      | h :: t => (c :: h) :: t

/-- Go `strings.Join(parts, ".")` -/
def joinDots (parts : List String) : String :=
  ⟨List.intercalate ['.'] (parts.map String.data)⟩

/-- Go `strings.ToLower`, restricted to ASCII (all data seen by the jar). -/
def goToLower (s : String) : String :=
  ⟨s.data.map Char.toLower⟩

/-- Go `strings.Trim(s, ".")`: remove leading and trailing dots. -/
def trimDots (s : String) : String :=
  ⟨((s.data.dropWhile (· = '.')).reverse.dropWhile (· = '.')).reverse⟩

/-- Go `strings.Index(s, ".") != -1`, i.e. the string contains a dot. -/
def containsDot (s : String) : Bool :=
  s.data.contains '.'

/-- Index (0-based) of the last occurrence of `c` in `l`, or `none`. -/
def lastIdxOf (c : Char) (l : List Char) : Option Nat :=
  match l.reverse.findIdx? (· = c) with
  | none => none
  | some k => some (l.length - 1 - k)

/-- The digits of an ASCII decimal numeral as a number. -/
def digitsToNat (l : List Char) : Nat :=
  l.foldl (fun n c => n * 10 + (c.toNat - '0'.toNat)) 0

/-! ## The Cookie entity (cookie.go) -/

/-- `Cookie` is the representation of a cookie in the cookie jar
(cookie.go).  Time fields are nanosecond instants, see the module
conventions. -/
structure Cookie where
  Name       : String
  Value      : String
  Domain     : String  -- the domain (no leading dot)
  Path       : String
  Expires    : Nat     -- zero value indicates a session cookie
  Secure     : Bool
  HostOnly   : Bool
  HttpOnly   : Bool
  Created    : Nat
  LastAccess : Nat
deriving DecidableEq, Repr, Inhabited

/-- `Session` checks if a cookie is a session cookie (zero `Expires`). -/
def Cookie.Session (c : Cookie) : Bool := c.Expires = 0

/-- `Expired` checks if the cookie `c` is expired at instant `now`
(`!c.Session() && c.Expires.Before(time.Now())`). -/
def Cookie.Expired (c : Cookie) (now : Nat) : Bool :=
  !c.Session && c.Expires < now

/-- `secureEnough`: every cookie may go over https; over plain http the
cookie must not be marked Secure. -/
def secureEnough (cookieIsSecure requestIsSecure : Bool) : Bool :=
  requestIsSecure || !cookieIsSecure

/-- `domainMatch` of RFC 6265 section 5.1.3 as implemented in cookie.go:
identical domains match; otherwise a non-host-only cookie matches any
host ending in `"." + c.Domain`. -/
def Cookie.domainMatch (c : Cookie) (host : String) : Bool :=
  if c.Domain = host then true
  else !c.HostOnly && goEndsWith host.data ('.' :: c.Domain.data)

/-- `pathMatch` according to RFC 6265 section 5.1.4 as implemented in
cookie.go.  (For an empty cookie path Go would panic on `c.Path[len-1]`;
that index is modelled by `getLast?`, and the stored paths are never
empty.) -/
def Cookie.pathMatch (c : Cookie) (requestPath : String) : Bool :=
  if requestPath = c.Path then true
  else if goStartsWith requestPath.data c.Path.data then
    if c.Path.data.getLast? = some '/' then true
    else if requestPath.data.getD c.Path.data.length ' ' = '/' then true
    else false
  else false

/-- `shouldSend` determines whether cookie `c` qualifies to be included
in a request to host/path.  The caller checks expiry separately. -/
def Cookie.shouldSend (c : Cookie) (https : Bool) (host path : String) : Bool :=
  c.domainMatch host && c.pathMatch path && secureEnough c.Secure https

/-- `sendList.Less` (cookie.go): longer paths go first; for equal path
lengths the earlier creation time goes first. -/
def sendLess (a b : Cookie) : Bool :=
  if a.Path.data.length = b.Path.data.length then a.Created < b.Created
  else a.Path.data.length > b.Path.data.length

/-- The non-strict total order corresponding to `sendLess`, used to state
what `sort.Sort(sendList(...))` guarantees of its output. -/
def sendLe (a b : Cookie) : Bool := !sendLess b a

/-- `sendLe` as a (decidable) relation, the order in which cookies are
returned for a request. -/
def sendOrd (a b : Cookie) : Prop := sendLe a b = true

instance : DecidableRel sendOrd := fun a b =>
  inferInstanceAs (Decidable (sendLe a b = true))

/-! ## Public-Suffix Matcher -/

/-- `Rule` is the kind of a rule in the public suffix list. -/
inductive Rule where
  | None      -- not a rule, just an internal node
  | Normal    -- a normal rule like "com.ac"
  | Exception -- an exception rule like "!city.kobe.jp"
  | Wildcard  -- a wildcard rule like "*.ar"
deriving DecidableEq, Repr

/-- `Node` describes a single label in a public suffix rule; the list of
rules is stored as a tree of nodes.  (A recursive structure, written as a
one-constructor inductive with field accessors.) -/
inductive Node where
  | mk (Label : String) (Kind : Rule) (Sub : List Node)

/-- The label of a rule node. -/
def Node.Label : Node → String
  | .mk l _ _ => l

/-- The rule kind of a node. -/
def Node.Kind : Node → Rule
  | .mk _ k _ => k

/-- The child nodes of a node. -/
def Node.Sub : Node → List Node
  | .mk _ _ s => s

/-- Modelled from the spec: the source's `findLabel` performs a Fibonacci
search over the (sorted) child array, but its precomputed `fibonacci`
table is not part of the sources.  Spec §9 states that the Fibonacci
search is a micro-optimisation and that any correct lookup over the
sorted labels is acceptable, so the lookup is modelled as a direct search
by label. -/
def findLabel (label : String) (nodes : List Node) : Option Node :=
  nodes.find? (fun n => n.Label = label)

/-- Modelled from the spec: the static rule data `PublicSuffixes` embedded
in the source is not part of the sources (spec §9 calls it a
partial/illustrative rule set).  This tree realises the rules that the
specification and the repository's own tests exercise: the normal rules
"com", "uk.com", "uk", "co.uk", the wildcard rule "*.cy", and the
wildcard-with-exception pair "*.om" / "!songfest.om". -/
def PublicSuffixes : Node :=
  ⟨"", Rule.None,
    [⟨"com", Rule.Normal, [⟨"uk", Rule.Normal, []⟩]⟩,
     ⟨"cy", Rule.Wildcard, []⟩,
     ⟨"om", Rule.Wildcard, [⟨"songfest", Rule.Exception, []⟩]⟩,
     ⟨"uk", Rule.Normal, [⟨"co", Rule.Normal, []⟩]⟩]⟩

/-- The right-to-left descent of `EffectiveTLDPlusOne`'s search loop:
starting from index `m` (one past the next label to try), walk down the
tree as long as labels keep matching.  Returns the final `m` together
with the last matching node (Go's `np`). -/
def psLookup (parts : List String) : Nat → List Node → Option Node → Nat × Option Node
  | 0, _, np => (0, np)
  | m + 1, nodes, np =>
    match findLabel (parts.getD m "") nodes with
    | none => (m + 1, np)
    | some sub => psLookup parts m sub.Sub (some sub)

/-- The default rule "*" of `EffectiveTLDPlusOne`, applied when no rule
of the tree matched: two labels yield the domain itself, more than two
yield the last two labels, fewer yield the empty string. -/
def psDefaultRule (domain : String) (parts : List String) : String :=
  if parts.length = 2 then domain
  else if parts.length > 2 then
    (parts.getD (parts.length - 2) "") ++ "." ++ (parts.getD (parts.length - 1) "")
  else ""

/-- The labels of a domain: `strings.Split(domain, ".")`. -/
def domainLabels (domain : String) : List String :=
  (splitOnChar '.' domain.data).map (fun l => (⟨l⟩ : String))

/-- Does no rule of the public suffix tree apply to `domain`, so that
the prevailing rule is the default rule "*"?  True when the search loop
ends without a matching node, or on a node that is no rule of its own
(`np == nil || np.Kind == None`). -/
def psNoRule (domain : String) : Bool :=
  match (psLookup (domainLabels domain) (domainLabels domain).length
          PublicSuffixes.Sub none).2 with
  | none => true
  | some np => np.Kind = Rule.None

/-- `EffectiveTLDPlusOne` retrieves the registrable domain ("public
suffix plus one label"); too short domains yield the empty string. -/
def EffectiveTLDPlusOne (domain : String) : String :=
  let parts := domainLabels domain
  let r := psLookup parts parts.length PublicSuffixes.Sub none
  match r.2 with
  | none => psDefaultRule domain parts
  | some np =>
    if np.Kind = Rule.None then psDefaultRule domain parts
    else
      let m : Int :=
        match np.Kind with
        | Rule.Normal => (r.1 : Int) - 1
        | Rule.Exception => r.1
        | Rule.Wildcard => (r.1 : Int) - 2
        | Rule.None => r.1
      if m < 0 then "" else joinDots (parts.drop m.toNat)

/-- `allowDomainCookies` checks whether a domain is specific enough to
allow domain cookies to be set for it. -/
def allowDomainCookies (domain : String) : Bool :=
  EffectiveTLDPlusOne domain ≠ ""

/-! ## Jar internals: host classification and paths (jar.go) -/

/-- Modelled from the Go standard library: `isIP` in the source asks
whether `net.ParseIP(host)` succeeds and round-trips to the same text,
i.e. whether the host is a canonical IP address literal.  Request hosts
are never bracketed IPv6 literals by the time they reach this check, so
the model covers canonical dotted-quad IPv4: four dot-separated decimal
parts, each without leading zeros and at most 255. -/
def isIP (host : String) : Bool :=
  let parts := splitOnChar '.' host.data
  parts.length = 4 && parts.all (fun p =>
    !p.isEmpty && p.all Char.isDigit &&
    (p.length = 1 || p.headD '0' ≠ '0') &&
    digitsToNat p ≤ 255)

/-- `defaultPath` returns the "directory" part of the path of a request
URL; empty and malformed paths yield "/" (RFC 6265 section 5.1.4). -/
def defaultPath (path : String) : String :=
  if path.data.length = 0 || path.data.headD ' ' ≠ '/' then "/"
  else
    match lastIdxOf '/' path.data with
    | none => "/"  -- unreachable: the path starts with '/'
    | some i => if i = 0 then "/" else ⟨path.data.take i⟩

/-- The error taxonomy of `domainAndType` (the `err…` variables of
jar.go). -/
inductive CookieError where
  | noHostname      -- "No hostname (IP only) available"
  | malformedDomain -- "Domain attribute of cookie is malformed"
  | tldDomainCookie -- "No domain cookies for TLDs allowed"
  | illegalPSDomain -- "Illegal cookie domain attribute for public suffix"
  | badDomain       -- "Bad cookie domaine attribute"
deriving DecidableEq, Repr

/-- The configurable flags of a `Jar` (jar.go). -/
structure JarConfig where
  MaxBytesPerCookie             : Int
  HostCookieOnIP                : Bool
  DomainCookiesOnPublicSuffixes : Bool
deriving DecidableEq, Repr

/-- The configuration installed by `NewJar`: 4096 bytes for name plus
value, no host cookies on IP addresses, no domain cookies on public
suffixes. -/
def NewJarConfig : JarConfig :=
  { MaxBytesPerCookie := 4096
    HostCookieOnIP := false
    DomainCookiesOnPublicSuffixes := false }

/-- The stripping of one leading "." from a cookie's domain attribute
(`domain = domainAttr; if domain[0] == '.' { domain = domain[1:] }`). -/
def stripDomainDot (domainAttr : String) : String :=
  if domainAttr.data.headD ' ' = '.' then (⟨domainAttr.data.tail⟩ : String)
  else domainAttr

/-- The resolved domain of a domain attribute: leading "." stripped,
lowercased (the `domain` variable of `domainAndType` past its
normalisation steps). -/
def resolvedDomain (domainAttr : String) : String :=
  goToLower (stripDomainDot domainAttr)

/-- `domainAndType` determines a received cookie's Domain and HostOnly
attributes from the request host and the cookie's domain attribute
(jar.go). -/
def domainAndType (cfg : JarConfig) (host domainAttr : String) :
    Except CookieError (String × Bool) :=
  if domainAttr = "" then
    -- an RFC 6265 conforming host cookie: no domain given
    .ok (host, true)
  else if isIP host then
    -- no hostname, just an IP address
    if cfg.HostCookieOnIP && domainAttr = host then .ok (host, true)
    else .error .noHostname
  else
    -- if valid: a domain cookie; strip a possible leading "."
    let domain0 := stripDomainDot domainAttr
    if domain0.data.length = 0 || domain0.data.headD ' ' = '.' then
      -- "Domain=." or "Domain=..some.thing" are illegal
      .error .malformedDomain
    else
      let domain := goToLower domain0  -- RFC 6265 section 5.2.3
      if domain.data.getLast? = some '.' then
        -- "Domain=www.example.com." must be rejected
        .error .malformedDomain
      else if !containsDot domain then
        -- never allow domain cookies for TLDs
        .error .tldDomainCookie
      else if !cfg.DomainCookiesOnPublicSuffixes && !allowDomainCookies domain then
        -- the "domain is a public suffix" case of RFC 6265 section 5.3
        if host = domainAttr then .ok (host, true)
        else .error .illegalPSDomain
      else if host ≠ domain && !goEndsWith host.data ('.' :: domain.data) then
        -- domain must domain-match host
        .error .badDomain
      else .ok (domain, false)

/-! ## Flat storage (jar.go, type `flat`)

`flat` is an unsorted array of cookies searched linearly.  The Go code
works on `[]*Cookie` and mutates through the pointers; the embedding
passes the store explicitly and addresses records by their index. -/

/-- The flat cookie storage: an unsorted list of cookie records. -/
abbrev flat := List Cookie

/-- The record used for fresh slots (`&Cookie{}`) and as the (never
reached) default of index accesses. -/
def emptyCookie : Cookie :=
  { Name := "", Value := "", Domain := "", Path := "", Expires := 0,
    Secure := false, HostOnly := false, HttpOnly := false,
    Created := 0, LastAccess := 0 }

/-- Does a stored record carry exactly the identity triple
`(domain, path, name)`? -/
def tripleMatch (domain path name : String) (c : Cookie) : Bool :=
  domain = c.Domain && path = c.Path && name = c.Name

/-- The advance of `cleanup`'s index `i` to the next expired entry:
`for i < j && !(*f)[i].Expired() { i++ }`.  The loop's iteration bound
`j - i` is passed as structural fuel (`nextExpired` below) so the
function evaluates by kernel reduction; the fuel equals the number of
steps the Go loop can make, so the behaviours coincide on all inputs. -/
def nextExpiredAux (f : List Cookie) (now j : Nat) : Nat → Nat → Nat
  | 0, i => i
  | fuel + 1, i =>
    if i < j then
      if (f.getD i emptyCookie).Expired now then i
      else nextExpiredAux f now j fuel (i + 1)
    else i

/-- See `nextExpiredAux`. -/
def nextExpired (f : List Cookie) (now i j : Nat) : Nat :=
  nextExpiredAux f now j (j - i) i

/-- The backwards scan of `cleanup` for a non-expired entry:
`for j > i && (*f)[j].Expired() { j--; n++ }`.  Returns the final `j`
and `n`; structural recursion on `j` (for `j = 0` the Go condition
`j > i` is false as well). -/
def backScan (f : List Cookie) (now i : Nat) : Nat → Nat → Nat × Nat
  | 0, n => (0, n)
  | j + 1, n =>
    if i < j + 1 && (f.getD (j + 1) emptyCookie).Expired now then
      backScan f now i j (n + 1)
    else (j + 1, n)

/-- The main loop of `cleanup` (jar.go): overwrite expired slots from the
front with live entries taken from the back.  Returns the final store
and the reslice bound `j` (`*f = (*f)[0:j]` happens in `flatCleanup`).
Each iteration strictly decreases `j`, so running the loop with
structural fuel `j + 1` (see `cleanupLoop`) never exhausts the fuel;
this keeps the definition kernel-computable.  Go tests `i == j` where
this embedding tests `p.1 ≤ i'`; under the loop invariant the back scan
never descends below `i`, so the two agree, and `≤` keeps the fuel-less
exhaustion branch unreachable states harmless. -/
def cleanupLoopAux (now num : Nat) : Nat → List Cookie → Nat → Nat → Nat → List Cookie × Nat
  | 0, f, _, j, _ => (f, j)
  | fuel + 1, f, i, j, n =>
    if n < num then
      let i' := nextExpired f now i j
      if i' = j - 1 then (f, j - 1)
      else
        let p := backScan f now i' (j - 1) n
        if p.1 ≤ i' ∨ p.2 = num then (f, p.1)
        else cleanupLoopAux now num fuel (f.set i' (f.getD p.1 emptyCookie)) (i' + 1) p.1 (p.2 + 1)
    else (f, j)

/-- See `cleanupLoopAux`. -/
def cleanupLoop (f : List Cookie) (now num i j n : Nat) : List Cookie × Nat :=
  cleanupLoopAux now num (j + 1) f i j n

/-- `cleanup` removes `num` expired cookies from the store (jar.go). -/
def flatCleanup (f : flat) (num : Nat) (now : Nat) : flat :=
  if num = 0 then f
  else if num = f.length then []
  else
    let r := cleanupLoop f now num 0 f.length 0
    r.1.take r.2

/-- The number of expired entries of a store at instant `now`. -/
def expiredCountP (l : List Cookie) (now : Nat) : Nat :=
  l.countP (fun c => c.Expired now)

/-- The live (non-expired) entries of a store at instant `now`. -/
def liveFilter (l : List Cookie) (now : Nat) : List Cookie :=
  l.filter (fun c => !c.Expired now)

/-- `flat.retrieve` fetches the unsorted list of cookies to be sent and
opportunistically compacts the store when more than 10 entries are
expired and the expired entries make up more than a fifth of the store. -/
def flatRetrieve (f : flat) (https : Bool) (host path : String) (now : Nat) :
    List Cookie × flat :=
  let selection := f.filter (fun c => !c.Expired now && c.shouldSend https host path)
  let expired := (f.filter (fun c => c.Expired now)).length
  if expired > 10 && expired > f.length / 5 then
    (selection, flatCleanup f expired now)
  else (selection, f)

/-- `flat.find` looks up the record `(domain, path, name)` or prepares a
"new" record (possibly reusing the slot of an expired record, whose name
is cleared to mark it new).  Returns the index of the record the caller
may populate, together with the store holding it. -/
def flatFind (f : flat) (domain path name : String) (now : Nat) : Nat × flat :=
  match f.findIdx? (tripleMatch domain path name) with
  | some i => (i, f)
  | none =>
    match f.findIdx? (fun c => c.Expired now) with
    | some i => (i, f.set i { f.getD i emptyCookie with Name := "" })
    | none => (f.length, f ++ [emptyCookie])

/-- `flat.delete` removes the record `(domain, path, name)` by moving the
last record into its slot and shortening the store.  Returns whether the
record was present. -/
def flatDelete (f : flat) (domain path name : String) : Bool × flat :=
  match f.findIdx? (tripleMatch domain path name) with
  | none => (false, f)
  | some i =>
    if i < f.length - 1 then
      (true, (f.set i (f.getD (f.length - 1) emptyCookie)).take (f.length - 1))
    else (true, f.take (f.length - 1))

/-! ## Jar operations (jar.go) -/

/-- The action codes of `Jar.update` (internal bookkeeping). -/
inductive updateAction where
  | invalidCookie
  | createCookie
  | updateCookie
  | deleteCookie
  | noSuchCookie
deriving DecidableEq, Repr

/-- The fields of a received `http.Cookie` that `SetCookies` reads.
`MaxAge` keeps Go's convention: `0` means unspecified. -/
structure RawCookie where
  Name     : String
  Value    : String
  Path     : String
  Domain   : String
  Expires  : Nat  -- zero = no Expires attribute
  MaxAge   : Int
  Secure   : Bool
  HttpOnly : Bool
deriving DecidableEq, Repr

/-- Nanoseconds per second: `time.Duration(maxAge) * time.Second`. -/
def nsPerSecond : Nat := 1000000000

/-- The cookie path resolution of `Jar.update`: the explicit path
attribute when it starts with "/", else the request's default path. -/
def resolveCookiePath (recieved : RawCookie) (defaultpath : String) : String :=
  if recieved.Path.data.length = 0 || recieved.Path.data.headD ' ' ≠ '/' then defaultpath
  else recieved.Path

/-- The deletion check and expiration time of `Jar.update`; MaxAge takes
precedence over Expires.  Returns (deleteRequest, expires). -/
def resolveExpiration (recieved : RawCookie) (now : Nat) : Bool × Nat :=
  if recieved.MaxAge < 0 then (true, 0)
  else if recieved.MaxAge > 0 then (false, now + recieved.MaxAge.toNat * nsPerSecond)
  else if recieved.Expires ≠ 0 then
    if recieved.Expires < now then (true, 0) else (false, recieved.Expires)
  else (false, 0)

/-- `Jar.update` stores, updates or deletes one received cookie
(jar.go). `host` is the canonical request host, `defaultpath` the
directory of the request path, `now` the current instant. -/
def jarUpdate (cfg : JarConfig) (f : flat) (host defaultpath : String)
    (recieved : RawCookie) (now : Nat) : updateAction × flat :=
  match domainAndType cfg host recieved.Domain with
  | .error _ => (.invalidCookie, f)
  | .ok dh =>
    let domain := dh.1
    let hostOnly := dh.2
    let path := resolveCookiePath recieved defaultpath
    let de := resolveExpiration recieved now
    if de.1 then
      let d := flatDelete f domain path recieved.Name
      if d.1 then (.deleteCookie, d.2) else (.noSuchCookie, d.2)
    else
      let fr := flatFind f domain path recieved.Name now
      let old := fr.2.getD fr.1 emptyCookie
      if old.Name.data.length = 0 then
        -- a new cookie
        (.createCookie, fr.2.set fr.1
          { Name := recieved.Name, Value := recieved.Value, Domain := domain,
            Path := path, Expires := de.2, Secure := recieved.Secure,
            HostOnly := hostOnly, HttpOnly := recieved.HttpOnly,
            Created := now, LastAccess := now })
      else
        -- an update for a cookie
        (.updateCookie, fr.2.set fr.1
          { old with HostOnly := hostOnly, Value := recieved.Value,
                     HttpOnly := recieved.HttpOnly, Expires := de.2,
                     Secure := recieved.Secure, LastAccess := now })

/-- `Jar.SetCookies` for a flat jar, at the level of the canonical host
and the request URL's path (scheme filtering and host canonicalisation
sit above the claims); drops cookies whose name plus value exceed
`MaxBytesPerCookie` when that cap is positive. -/
def jarSetCookies (cfg : JarConfig) (f : flat) (host upath : String)
    (cookies : List RawCookie) (now : Nat) : flat :=
  let defaultpath := defaultPath upath
  cookies.foldl (fun acc c =>
    if cfg.MaxBytesPerCookie > 0 &&
       (c.Name.data.length + c.Value.data.length : Int) > cfg.MaxBytesPerCookie then
      acc
    else (jarUpdate cfg acc host defaultpath c now).2) f

/-- The cookies selected and sorted by `Jar.Cookies`: the non-expired
matching records in send order.  `sort.Sort(sendList(cookies))`
guarantees exactly an output that is a permutation of its input and
sorted under the comparator; the embedding realises it with an insertion
sort over the same order. -/
def jarSelection (f : flat) (https : Bool) (host path : String) (now : Nat) :
    List Cookie :=
  List.insertionSort sendOrd ((flatRetrieve f https host path now).1)

/-- `Jar.Cookies` for a flat jar: returns the name/value pairs in send
order together with the updated store (compaction plus the strictly
increasing `LastAccess` stamps `now`, `now+1ns`, … on the returned
cookies; Go updates them through shared pointers, modelled here through
the record's position in the sorted selection). -/
def jarCookies (f : flat) (https : Bool) (host upath : String) (now : Nat) :
    List (String × String) × flat :=
  let path := if upath = "" then "/" else upath
  let sorted := jarSelection f https host path now
  let pairs := sorted.map (fun c => (c.Name, c.Value))
  let f' := (flatRetrieve f https host path now).2.map (fun c =>
    match sorted.findIdx? (· = c) with
    | some k => { c with LastAccess := now + k }
    | none => c)
  (pairs, f')

/-- `Jar.Add` bulk-loads records, skipping expired ones and overwriting
by identity triple; `LastAccess` is taken over as given. -/
def jarAdd (f : flat) (cookies : List Cookie) (now : Nat) : flat :=
  cookies.foldl (fun acc cookie =>
    if cookie.Expired now then acc
    else
      let fr := flatFind acc cookie.Domain cookie.Path cookie.Name now
      fr.2.set fr.1 cookie) f

/-- `Jar.Remove` deletes by identity triple after normalising the domain
(`strings.Trim(strings.ToLower(domain), ".")`); returns whether the
record existed, together with the new store. -/
def jarRemove (f : flat) (domain path name : String) : Bool × flat :=
  flatDelete f (trimDots (goToLower domain)) path name

/-! ## Boxed storage (jar.go, type `boxed`)

`boxed` shards the cookies into `flat` buckets keyed by the effective
top-level-domain-plus-one (falling back to the domain itself).  The Go
map is modelled as an association list with unique keys. -/

/-- The boxed cookie storage. -/
abbrev boxed := List (String × flat)

/-- The bucket key used by `boxed.flat`, `boxed.find` and
`boxed.delete`: `EffectiveTLDPlusOne`, falling back to the raw name. -/
def bucketKey (host : String) : String :=
  let box := EffectiveTLDPlusOne host
  if box = "" then host else box

/-- Map lookup: the bucket stored under `key`, if any. -/
def boxedLookup (b : boxed) (key : String) : Option flat :=
  (b.find? (fun kv => kv.1 = key)).map (fun kv => kv.2)

/-- `boxed.flat`: the bucket in charge of `host`, if present. -/
def boxedFlat (b : boxed) (host : String) : Option flat :=
  boxedLookup b (bucketKey host)

/-- Map update of the bucket stored under `key`. -/
def boxedStore (b : boxed) (key : String) (f : flat) : boxed :=
  b.map (fun kv => if kv.1 = key then (kv.1, f) else kv)

/-- `boxed.retrieve`: delegate to the bucket of the request host. -/
def boxedRetrieve (b : boxed) (https : Bool) (host path : String) (now : Nat) :
    List Cookie × boxed :=
  match boxedFlat b host with
  | some f =>
    let r := flatRetrieve f https host path now
    (r.1, boxedStore b (bucketKey host) r.2)
  | none => ([], b)

/-- `boxed.find`: delegate to the bucket of the cookie's domain,
creating the bucket (with one fresh record) when absent.  The record's
address is the pair of its bucket key and its index there. -/
def boxedFind (b : boxed) (domain path name : String) (now : Nat) :
    (String × Nat) × boxed :=
  match boxedFlat b domain with
  | some f =>
    let r := flatFind f domain path name now
    ((bucketKey domain, r.1), boxedStore b (bucketKey domain) r.2)
  | none => ((bucketKey domain, 0), b ++ [(bucketKey domain, [emptyCookie])])

/-- `boxed.delete`: delegate to the bucket of the cookie's domain. -/
def boxedDelete (b : boxed) (domain path name : String) : Bool × boxed :=
  match boxedFlat b domain with
  | some f =>
    let r := flatDelete f domain path name
    (r.1, boxedStore b (bucketKey domain) r.2)
  | none => (false, b)

/-- The record stored under an identity triple, if any (the first one
in storage order; under the jar's invariant there is at most one). -/
def storedCookie (f : flat) (domain path name : String) : Option Cookie :=
  f.find? (tripleMatch domain path name)

/-- What a deletion request is specified to do: remove the record with
the given identity triple when present (result `deleteCookie`, the store
losing exactly that record), and leave the jar unchanged with result
`noSuchCookie` when absent. -/
def deletionOutcome (f : flat) (domain path name : String)
    (r : updateAction × flat) : Prop :=
  (∃ i, f.findIdx? (tripleMatch domain path name) = some i ∧
    r.1 = updateAction.deleteCookie ∧ r.2.Perm (f.eraseIdx i)) ∨
  (f.findIdx? (tripleMatch domain path name) = none ∧
    r = (updateAction.noSuchCookie, f))

/-- The record that the create branch of `Jar.update` writes into the
prepared slot. -/
def newStoredCookie (rc : RawCookie) (domain path : String) (hostOnly : Bool)
    (now : Nat) : Cookie :=
  { Name := rc.Name, Value := rc.Value, Domain := domain, Path := path,
    Expires := (resolveExpiration rc now).2, Secure := rc.Secure,
    HostOnly := hostOnly, HttpOnly := rc.HttpOnly,
    Created := now, LastAccess := now }

/-- Test scaffolding: a cookie that is live (`e = false`) or already
expired (`e = true`) at instant 10, carrying its original index as name
(mirrors the generator of the repository's `TestFlatCleanup`). -/
def mkCk (nm : String) (e : Bool) : Cookie :=
  { emptyCookie with Name := nm, Expires := if e then 1 else 0 }

example : (flatCleanup [mkCk "0" false, mkCk "1" false, mkCk "2" false, mkCk "3" false, mkCk "4" false] 0 10).map Cookie.Name = ["0", "1", "2", "3", "4"] := by decide
example : (flatCleanup [mkCk "0" false, mkCk "1" false, mkCk "2" false, mkCk "3" false, mkCk "4" true] 1 10).map Cookie.Name = ["0", "1", "2", "3"] := by decide
example : (flatCleanup [mkCk "0" false, mkCk "1" false, mkCk "2" false, mkCk "3" true, mkCk "4" true] 2 10).map Cookie.Name = ["0", "1", "2"] := by decide
example : (flatCleanup [mkCk "0" true, mkCk "1" false, mkCk "2" false, mkCk "3" false, mkCk "4" false] 1 10).map Cookie.Name = ["4", "1", "2", "3"] := by decide
example : (flatCleanup [mkCk "0" true, mkCk "1" true, mkCk "2" false, mkCk "3" false, mkCk "4" false] 2 10).map Cookie.Name = ["4", "3", "2"] := by decide
example : (flatCleanup [mkCk "0" true, mkCk "1" false, mkCk "2" true, mkCk "3" false, mkCk "4" false] 2 10).map Cookie.Name = ["4", "1", "3"] := by decide
example : (flatCleanup [mkCk "0" true, mkCk "1" false, mkCk "2" true, mkCk "3" false, mkCk "4" true] 3 10).map Cookie.Name = ["3", "1"] := by decide
example : (flatCleanup [mkCk "0" true, mkCk "1" false, mkCk "2" true, mkCk "3" true, mkCk "4" true] 4 10).map Cookie.Name = ["1"] := by decide
example : (flatCleanup [mkCk "0" true, mkCk "1" true, mkCk "2" true, mkCk "3" false, mkCk "4" false] 3 10).map Cookie.Name = ["4", "3"] := by decide
example : (flatCleanup [mkCk "0" true, mkCk "1" true, mkCk "2" true, mkCk "3" false, mkCk "4" true] 4 10).map Cookie.Name = ["3"] := by decide
example : (flatCleanup [mkCk "0" true, mkCk "1" true, mkCk "2" true, mkCk "3" true, mkCk "4" true] 5 10).map Cookie.Name = [] := by decide
example : (flatCleanup [mkCk "0" true, mkCk "1" true, mkCk "2" true, mkCk "3" false, mkCk "4" false, mkCk "5" true, mkCk "6" true, mkCk "7" true] 6 10).map Cookie.Name = ["4", "3"] := by decide
example : (flatCleanup [mkCk "0" true, mkCk "1" true, mkCk "2" false, mkCk "3" true, mkCk "4" false, mkCk "5" true, mkCk "6" true, mkCk "7" true] 6 10).map Cookie.Name = ["4", "2"] := by decide
example : (flatCleanup [mkCk "0" true, mkCk "1" true, mkCk "2" false, mkCk "3" true, mkCk "4" false, mkCk "5" false, mkCk "6" true, mkCk "7" true] 5 10).map Cookie.Name = ["5", "4", "2"] := by decide
example : (flatCleanup [mkCk "0" true, mkCk "1" true, mkCk "2" false, mkCk "3" true, mkCk "4" true, mkCk "5" false, mkCk "6" true, mkCk "7" true] 6 10).map Cookie.Name = ["5", "2"] := by decide
example : (flatCleanup [mkCk "0" false, mkCk "1" false, mkCk "2" true, mkCk "3" true, mkCk "4" true, mkCk "5" true, mkCk "6" true, mkCk "7" true] 6 10).map Cookie.Name = ["0", "1"] := by decide

/-- A store of twelve entries of which eleven are expired at instant 10:
over the compaction thresholds (more than 10 expired, more than a fifth
of the store). -/
def compactStore : flat :=
  [mkCk "0" true, mkCk "1" true, mkCk "2" true, mkCk "3" true,
   mkCk "4" true, mkCk "5" true, mkCk "6" true, mkCk "7" true,
   mkCk "8" true, mkCk "9" true, mkCk "10" true, mkCk "11" false]

/-- A store of ten entries of which six are expired at instant 10: the
expired fraction exceeds a fifth but the absolute count does not exceed
ten, so retrieval never compacts it. -/
def ten6Store : flat :=
  [mkCk "0" true, mkCk "1" true, mkCk "2" true, mkCk "3" true,
   mkCk "4" true, mkCk "5" true, mkCk "6" false, mkCk "7" false,
   mkCk "8" false, mkCk "9" false]

/-- The shape invariant of a stored record: its `Domain` carries no
leading `"."` (host-vs-domain is carried by `HostOnly`) and its `Path`
is non-empty and begins with `"/"`. -/
def goodShape (c : Cookie) : Bool :=
  !(c.Domain.data.headD ' ' = '.') && (c.Path.data.headD ' ' = '/')

/-- At most one record per `(Domain, Path, Name)` identity triple. -/
def noDupTriples : flat → Bool
  | [] => true
  | c :: rest =>
    (rest.all fun d => !tripleMatch c.Domain c.Path c.Name d) && noDupTriples rest

/-- The store invariant: every record well-shaped, triples unique. -/
def wfStore (f : flat) : Bool :=
  f.all goodShape && noDupTriples f

/-- The coupling invariant between a boxed (domain-sharded) store and a
flat store holding the same cookie data: every record sits in the bucket
of its domain's key, bucket keys are unique, and the multiset of all
records coincides. -/
def BoxedRep (b : boxed) (f : flat) : Prop :=
  (∀ kv ∈ b, ∀ c ∈ kv.2, bucketKey c.Domain = kv.1) ∧
  ((b.map Prod.fst).Nodup) ∧
  (((b.map Prod.snd).join).Perm f)

/-- A domain cookie for `c.cy` (storable via `Add`): its domain shards
into bucket "c.cy" while a request host `b.c.cy` shards into bucket
"b.c.cy". -/
def crossCookie : Cookie :=
  { emptyCookie with Name := "x", Value := "v", Domain := "c.cy", Path := "/" }

/-- An unsanitised record: leading-dot domain, empty path. -/
def badAddCookie : Cookie :=
  { emptyCookie with Name := "a", Domain := ".x.com" }

/-- Test scaffolding: a received session cookie with name, value and
path attribute. -/
def mkRaw (nm v p : String) : RawCookie :=
  { Name := nm, Value := v, Path := p, Domain := "", Expires := 0,
    MaxAge := 0, Secure := false, HttpOnly := false }

example :
    (jarCookies
      (jarSetCookies NewJarConfig [] "www.host.test" "/"
        [mkRaw "A" "a" "/foo/bar", mkRaw "D" "d" "/foo"] 100)
      false "www.host.test" "/foo/bar" 200).1 = [("A", "a"), ("D", "d")] := by decide

example :
    (jarCookies
      (jarSetCookies NewJarConfig [] "www.host.test" "/"
        [mkRaw "A" "a" "/foo/bar", mkRaw "D" "d" "/foo"] 100)
      false "www.host.test" "/foo" 200).1 = [("D", "d")] := by decide

example :
    (jarCookies
      (jarSetCookies NewJarConfig [] "www.host.test" "/"
        [{ mkRaw "A" "a" "/" with Secure := true }] 100)
      false "www.host.test" "/" 200).1 = [] := by decide

example :
    (jarCookies
      (jarSetCookies NewJarConfig [] "www.host.test" "/"
        [{ mkRaw "A" "a" "/" with Secure := true }] 100)
      true "www.host.test" "/" 200).1 = [("A", "a")] := by decide

example :
    (jarSetCookies NewJarConfig [] "www.host.test" "/some/path/index.html"
      [mkRaw "A" "a" ""] 100).map Cookie.Path = ["/some/path"] := by decide

example :
    (jarSetCookies NewJarConfig
      (jarSetCookies NewJarConfig [] "www.example.com" "/" [mkRaw "a" "1" "/"] 100)
      "www.example.com" "/" [{ mkRaw "a" "1" "/" with MaxAge := -1 }] 200) = [] := by decide

example :
    (jarRemove
      (jarAdd []
        [{ emptyCookie with
            Name := "a", Value := "2", Domain := "www.host.test", Path := "/bar" }] 50)
      "www.host.test" "/bar" "a") = (true, []) := by decide

example :
    (jarRemove [] "www.host.test" "/bar" "a") = (false, []) := by decide

example : EffectiveTLDPlusOne "example.com" = "example.com" := by decide
example : EffectiveTLDPlusOne "com" = "" := by decide
example : EffectiveTLDPlusOne "b.example.uk.com" = "example.uk.com" := by decide
example : EffectiveTLDPlusOne "cy" = "" := by decide
example : EffectiveTLDPlusOne "c.cy" = "" := by decide
example : EffectiveTLDPlusOne "b.c.cy" = "b.c.cy" := by decide
example : EffectiveTLDPlusOne "a.b.c.cy" = "b.c.cy" := by decide
example : EffectiveTLDPlusOne "songfest.om" = "songfest.om" := by decide
example : EffectiveTLDPlusOne "www.songfest.om" = "songfest.om" := by decide
example : EffectiveTLDPlusOne "test.om" = "" := by decide
example : EffectiveTLDPlusOne "b.test.om" = "b.test.om" := by decide
example : EffectiveTLDPlusOne "example.example" = "example.example" := by decide
example : EffectiveTLDPlusOne "a.b.example.example" = "example.example" := by decide
example : EffectiveTLDPlusOne "example" = "" := by decide
example : allowDomainCookies "co.uk" = false := by decide
example : allowDomainCookies "bbc.co.uk" = true := by decide
example : isIP "127.0.0.1" = true := by decide
example : isIP "1.1.1.300" = false := by decide
example : isIP "example.com" = false := by decide
example : isIP "123.foo.bar.net" = false := by decide
example : defaultPath "" = "/" := by decide
example : defaultPath "xy/z" = "/" := by decide
example : defaultPath "/abc" = "/" := by decide
example : defaultPath "/ab/xy/km" = "/ab/xy" := by decide
example : defaultPath "/abc/" = "/abc" := by decide
example : domainAndType NewJarConfig "www.example.com" "" =
    .ok ("www.example.com", true) := by decide
example : domainAndType NewJarConfig "www.example.com" ".example.com" =
    .ok ("example.com", false) := by decide
example : domainAndType NewJarConfig "www.example.com" "com" =
    .error .tldDomainCookie := by decide
example : domainAndType NewJarConfig "www.example.com" ".com" =
    .error .tldDomainCookie := by decide
example : domainAndType NewJarConfig "www.bbc.co.uk" "co.uk" =
    .error .illegalPSDomain := by decide
example : domainAndType NewJarConfig "co.uk" "co.uk" =
    .ok ("co.uk", true) := by decide
example : domainAndType NewJarConfig "www.example.com" "." =
    .error .malformedDomain := by decide
example : domainAndType NewJarConfig "www.example.com" ".." =
    .error .malformedDomain := by decide
example : domainAndType NewJarConfig "127.www.0.0.1" "127.0.0.1" =
    .error .badDomain := by decide
example : domainAndType NewJarConfig "127.0.0.1" "127.0.0.1" =
    .error .noHostname := by decide
example : domainAndType NewJarConfig "www.example.com" "www.example.com" =
    .ok ("www.example.com", false) := by decide
example : domainAndType NewJarConfig "foo.sso.example.com" "sso.example.com" =
    .ok ("sso.example.com", false) := by decide
example : domainAndType NewJarConfig "www.example.com" ".GOOGLE.COM" =
    .error .badDomain := by decide
example : domainAndType NewJarConfig "www.google.com" "www.google.com." =
    .error .malformedDomain := by decide
example : domainAndType { NewJarConfig with HostCookieOnIP := true }
    "127.0.0.1" "127.0.0.1" = .ok ("127.0.0.1", true) := by decide

example : goStartsWith "abc".data "ab".data = true := by decide
example : goStartsWith "abc".data "b".data = false := by decide
example : goEndsWith "b.c.cy".data ".c.cy".data = true := by decide
example : splitOnChar '.' "b.c.cy".data = ["b".data, "c".data, "cy".data] := by decide
example : splitOnChar '.' "".data = [[]] := by decide
example : joinDots ["b", "c", "cy"] = "b.c.cy" := by decide
example : goToLower "Co.UK" = "co.uk" := by decide
example : trimDots ".a.b." = "a.b" := by decide
example : lastIdxOf '/' "/ab/xy".data = some 3 := by decide
example : digitsToNat "255".data = 255 := by decide

/-! ## Helper lemmas: `findIdx?` / `find?` positional reasoning -/

theorem backScan_fst_le (f : List Cookie) (now i j n : Nat) :
    (backScan f now i j n).1 ≤ j := by
  induction j generalizing n with
  | zero => simp [backScan]
  | succ j ih =>
    rw [backScan]
    split
    · exact le_trans (ih (n + 1)) (Nat.le_succ j)
    · exact le_rfl

theorem findIdx?_some_spec {α} (d : α) {p : α → Bool} :
    ∀ {l : List α} {i : Nat}, l.findIdx? p = some i →
      i < l.length ∧ p (l.getD i d) = true ∧ ∀ k, k < i → p (l.getD k d) = false := by
  intro l
  induction l with
  | nil => intro i h; simp [List.findIdx?_nil] at h
  | cons x xs ih =>
    intro i h
    rw [List.findIdx?_cons] at h
    by_cases hx : p x
    · simp only [hx, if_pos] at h
      cases h
      exact ⟨by simp, by simpa, fun k hk => absurd hk (Nat.not_lt_zero k)⟩
    · simp only [hx, if_neg, Bool.false_eq_true, List.findIdx?_succ] at h
      match hi : xs.findIdx? p with
      | none => rw [hi] at h; simp at h
      | some i' =>
        rw [hi] at h
        simp only [Option.map_some'] at h
        cases h
        obtain ⟨h1, h2, h3⟩ := ih hi
        refine ⟨by simpa using h1, by simpa using h2, ?_⟩
        intro k hk
        match k with
        | 0 => simpa using hx
        | k + 1 => simpa using h3 k (by omega)

theorem findIdx?_eq_some_of {α} (d : α) {p : α → Bool} :
    ∀ {l : List α} {i : Nat}, i < l.length → p (l.getD i d) = true →
      (∀ k, k < i → p (l.getD k d) = false) → l.findIdx? p = some i := by
  intro l
  induction l with
  | nil => intro i h; simp at h
  | cons x xs ih =>
    intro i hi hp hk
    rw [List.findIdx?_cons]
    match i with
    | 0 =>
      simp only [List.getD_cons_zero] at hp
      simp [hp]
    | i + 1 =>
      have hx : p x = false := by simpa using hk 0 (by omega)
      simp only [hx, Bool.false_eq_true, if_neg, List.findIdx?_succ]
      have : xs.findIdx? p = some i := by
        refine ih (by simpa using hi) (by simpa using hp) ?_
        intro k hkk
        simpa using hk (k + 1) (by omega)
      simp [this]

theorem find?_eq_findIdx?_getD {α} (d : α) (p : α → Bool) :
    ∀ l : List α, l.find? p = (l.findIdx? p).map (fun i => l.getD i d) := by
  intro l
  induction l with
  | nil => simp
  | cons x xs ih =>
    rw [List.findIdx?_cons]
    by_cases hx : p x
    · simp [List.find?_cons_of_pos _ hx, hx]
    · rw [List.find?_cons_of_neg _ hx]
      simp only [hx, Bool.false_eq_true, if_neg, List.findIdx?_succ, ih]
      match xs.findIdx? p with
      | none => simp
      | some i => simp

theorem getD_set_self {α} (d : α) (l : List α) (i : Nat) (v : α) (h : i < l.length) :
    (l.set i v).getD i d = v := by
  simp [List.getD_eq_getElem?_getD, List.getElem?_set_self (by simpa using h)]

theorem getD_set_ne {α} (d : α) (l : List α) {i k : Nat} (v : α) (h : i ≠ k) :
    (l.set i v).getD k d = l.getD k d := by
  simp [List.getD_eq_getElem?_getD, List.getElem?_set_ne h]

/-! ## Claim C10 -/

/-- Claim C10: in `SetCookies` a received cookie is rejected for size
exactly when `MaxBytesPerCookie > 0` and `len(Name) + len(Value)`
strictly exceeds it; a cap `≤ 0` imposes no size limit (the cookie is
always handed to the update algorithm); and `NewJar` initialises the cap
to 4096 bytes. -/
theorem setCookies_maxBytes (cfg : JarConfig) (f : flat) (host upath : String)
    (rc : RawCookie) (now : Nat) :
    (jarSetCookies cfg f host upath [rc] now =
      if cfg.MaxBytesPerCookie > 0 ∧
         (rc.Name.data.length + rc.Value.data.length : Int) > cfg.MaxBytesPerCookie
      then f
      else (jarUpdate cfg f host (defaultPath upath) rc now).2) ∧
    (cfg.MaxBytesPerCookie ≤ 0 →
      jarSetCookies cfg f host upath [rc] now =
        (jarUpdate cfg f host (defaultPath upath) rc now).2) ∧
    NewJarConfig.MaxBytesPerCookie = 4096 := by
  refine ⟨?_, ?_, rfl⟩
  · simp only [jarSetCookies, List.foldl_cons, List.foldl_nil]
    by_cases h1 : cfg.MaxBytesPerCookie > 0
    · by_cases h2 : (rc.Name.data.length + rc.Value.data.length : Int) > cfg.MaxBytesPerCookie
      · simp [h1, h2]
      · simp [h1, h2]
    · simp [h1]
  · intro hle
    simp only [jarSetCookies, List.foldl_cons, List.foldl_nil]
    have h1 : ¬ cfg.MaxBytesPerCookie > 0 := by omega
    simp [h1]

/-- Witness for `setCookies_maxBytes` at a concrete input: a jar whose
cap is `0` hands even a 5000-byte value to the update algorithm. -/
theorem setCookies_maxBytes_witness :
    ((0 : Int) ≤ 0) ∧
    (jarSetCookies { MaxBytesPerCookie := 0, HostCookieOnIP := false,
                     DomainCookiesOnPublicSuffixes := false }
      [] "www.host.test" "/" [mkRaw "A" ⟨List.replicate 5000 'x'⟩ "/"] 100 =
      (jarUpdate { MaxBytesPerCookie := 0, HostCookieOnIP := false,
                   DomainCookiesOnPublicSuffixes := false }
        [] "www.host.test" (defaultPath "/") (mkRaw "A" ⟨List.replicate 5000 'x'⟩ "/") 100).2) :=
  ⟨by decide,
   (setCookies_maxBytes _ [] "www.host.test" "/" _ 100).2.1 (by decide)⟩

/-! ## Claim C7 -/

theorem joinDots_pair (a b : String) : joinDots [a, b] = a ++ "." ++ b := by
  apply congrArg String.mk
  simp [joinDots, List.intercalate, List.intersperse, String.data_append]

theorem drop_len_sub_two {α} (d : α) (l : List α) (h : 2 < l.length) :
    l.drop (l.length - 2) = [l.getD (l.length - 2) d, l.getD (l.length - 1) d] := by
  have h1 : l.length - 2 < l.length := by omega
  have h2 : l.length - 1 < l.length := by omega
  rw [List.drop_eq_getElem_cons h1]
  have : l.length - 2 + 1 = l.length - 1 := by omega
  rw [this, List.drop_eq_getElem_cons h2]
  have : l.length - 1 + 1 = l.length := by omega
  rw [this, List.drop_length]
  simp [List.getD_eq_getElem?_getD, List.getElem?_eq_getElem h1, List.getElem?_eq_getElem h2]

/-- Claim C7: `EffectiveTLDPlusOne` applies the default rule "*" when no
public-suffix rule matches: exactly two labels return the domain itself,
more than two labels return the last two labels, one or zero labels
return the empty string; and in particular
`EffectiveTLDPlusOne "b.c.cy" = "b.c.cy"` (wildcard rule under "cy"),
`EffectiveTLDPlusOne "c.cy" = ""` and
`EffectiveTLDPlusOne "example.com" = "example.com"`. -/
theorem effectiveTLDPlusOne_defaultRule :
    (∀ domain : String, psNoRule domain = true →
      ((domainLabels domain).length = 2 → EffectiveTLDPlusOne domain = domain) ∧
      ((domainLabels domain).length > 2 →
        EffectiveTLDPlusOne domain =
          joinDots ((domainLabels domain).drop ((domainLabels domain).length - 2))) ∧
      ((domainLabels domain).length ≤ 1 → EffectiveTLDPlusOne domain = "")) ∧
    EffectiveTLDPlusOne "b.c.cy" = "b.c.cy" ∧
    EffectiveTLDPlusOne "c.cy" = "" ∧
    EffectiveTLDPlusOne "example.com" = "example.com" := by
  refine ⟨?_, by decide, by decide, by decide⟩
  intro domain hnr
  have hdef : EffectiveTLDPlusOne domain = psDefaultRule domain (domainLabels domain) := by
    unfold EffectiveTLDPlusOne
    unfold psNoRule at hnr
    match hr : (psLookup (domainLabels domain) (domainLabels domain).length
        PublicSuffixes.Sub none).2 with
    | none => simp [hr]
    | some np =>
      rw [hr] at hnr
      have : np.Kind = Rule.None := by simpa using hnr
      simp [hr, this]
  rw [hdef]
  refine ⟨?_, ?_, ?_⟩
  · intro h2
    simp [psDefaultRule, h2]
  · intro h2
    rw [drop_len_sub_two "" _ h2, joinDots_pair]
    simp only [psDefaultRule]
    rw [if_neg (by omega), if_pos (by omega)]
  · intro h1
    simp only [psDefaultRule]
    rw [if_neg (by omega), if_neg (by omega)]

/-- Witness for `effectiveTLDPlusOne_defaultRule`: the unlisted domains
"example.example" (two labels), "a.b.example.example" (four labels) and
"example" (one label) fall to the default rule. -/
theorem effectiveTLDPlusOne_defaultRule_witness :
    psNoRule "example.example" = true ∧
    EffectiveTLDPlusOne "example.example" = "example.example" ∧
    EffectiveTLDPlusOne "a.b.example.example" =
      joinDots ((domainLabels "a.b.example.example").drop
        ((domainLabels "a.b.example.example").length - 2)) ∧
    EffectiveTLDPlusOne "example" = "" :=
  ⟨by decide,
   (effectiveTLDPlusOne_defaultRule.1 "example.example" (by decide)).1 (by decide),
   (effectiveTLDPlusOne_defaultRule.1 "a.b.example.example" (by decide)).2.1 (by decide),
   (effectiveTLDPlusOne_defaultRule.1 "example" (by decide)).2.2 (by decide)⟩

/-! ## Claim C3 -/

/-- Claim C3 (amended): with the public-suffix flag unset, a request
host that is not an IP, and a non-empty domain attribute that passes the
malformed/TLD checks but whose resolved domain is a recognised public
suffix, the cookie degrades to a host cookie exactly when the raw
domain attribute string is character-identical to the request host;
otherwise it is rejected with `IllegalPublicSuffixDomain` and the update
algorithm leaves the jar unchanged. -/
theorem domainAndType_publicSuffix (cfg : JarConfig) (host domainAttr : String)
    (hflag : cfg.DomainCookiesOnPublicSuffixes = false)
    (hip : isIP host = false)
    (hne : domainAttr ≠ "")
    (hlen : (stripDomainDot domainAttr).data.length ≠ 0)
    (hhd : (stripDomainDot domainAttr).data.headD ' ' ≠ '.')
    (hlast : (resolvedDomain domainAttr).data.getLast? ≠ some '.')
    (hdot : containsDot (resolvedDomain domainAttr) = true)
    (hps : allowDomainCookies (resolvedDomain domainAttr) = false) :
    (domainAndType cfg host domainAttr =
      if host = domainAttr then .ok (host, true) else .error .illegalPSDomain) ∧
    (∀ (f : flat) (dp : String) (rc : RawCookie) (now : Nat),
      rc.Domain = domainAttr → host ≠ domainAttr →
      jarUpdate cfg f host dp rc now = (.invalidCookie, f)) := by
  have hmain : domainAndType cfg host domainAttr =
      if host = domainAttr then .ok (host, true) else .error .illegalPSDomain := by
    unfold domainAndType
    rw [if_neg hne, if_neg (by simp [hip])]
    simp only [resolvedDomain] at hlast hdot hps
    simp [hlen, hhd, hlast, hdot, hps, hflag]
    intro hc
    rw [List.headD_eq_head?_getD] at hhd
    rcases hc with hc | hc
    · exact absurd hc hlen
    · exact absurd hc hhd
  refine ⟨hmain, ?_⟩
  intro f dp rc now hrc hne2
  unfold jarUpdate
  rw [hrc, hmain, if_neg hne2]

/-- Witness for `domainAndType_publicSuffix`: from host
"www.bbc.co.uk" a cookie with domain attribute "co.uk" (a public
suffix, not equal to the host) is rejected and the store is unchanged. -/
theorem domainAndType_publicSuffix_witness :
    (isIP "www.bbc.co.uk" = false ∧
     allowDomainCookies (resolvedDomain "co.uk") = false) ∧
    (domainAndType NewJarConfig "www.bbc.co.uk" "co.uk" =
      if ("www.bbc.co.uk" : String) = "co.uk" then .ok ("www.bbc.co.uk", true)
      else .error .illegalPSDomain) ∧
    jarUpdate NewJarConfig [] "www.bbc.co.uk" "/"
      { mkRaw "b" "2" "/" with Domain := "co.uk" } 100 = (.invalidCookie, []) :=
  ⟨⟨by decide, by decide⟩,
   (domainAndType_publicSuffix NewJarConfig "www.bbc.co.uk" "co.uk" rfl (by decide)
     (by decide) (by decide) (by decide) (by decide) (by decide) (by decide)).1,
   (domainAndType_publicSuffix NewJarConfig "www.bbc.co.uk" "co.uk" rfl (by decide)
     (by decide) (by decide) (by decide) (by decide) (by decide) (by decide)).2
     [] "/" _ 100 rfl (by decide)⟩

/-- Counterexample to claim C3 as stated: for request host "co.uk" and
domain attribute ".co.uk", the resolved domain (leading "." stripped,
lowercased) is "co.uk" — a recognised public suffix that is
character-identical to the request host — so the claim demands the
cookie be accepted as a host cookie; the code instead compares the raw
attribute ".co.uk" with the host and rejects the cookie with
`IllegalPublicSuffixDomain`. -/
theorem domainAndType_publicSuffix_counterexample :
    resolvedDomain ".co.uk" = "co.uk" ∧
    allowDomainCookies "co.uk" = false ∧
    isIP "co.uk" = false ∧
    domainAndType NewJarConfig "co.uk" ".co.uk" = .error .illegalPSDomain := by
  refine ⟨by decide, by decide, by decide, by decide⟩

/-! ## Claim C2 -/

theorem getD_mem_of_lt {α} (d : α) {l : List α} {k : Nat} (h : k < l.length) :
    l.getD k d ∈ l := by
  rw [List.getD_eq_getElem?_getD, List.getElem?_eq_getElem h]
  exact List.getElem_mem h

theorem flatDelete_of_none {f : flat} {d p n : String}
    (h : f.findIdx? (tripleMatch d p n) = none) :
    flatDelete f d p n = (false, f) := by
  unfold flatDelete
  rw [h]

theorem flatDelete_of_some {f : flat} {d p n : String} {i : Nat}
    (h : f.findIdx? (tripleMatch d p n) = some i) :
    (flatDelete f d p n).1 = true ∧ (flatDelete f d p n).2.Perm (f.eraseIdx i) := by
  obtain ⟨hi, -, -⟩ := findIdx?_some_spec emptyCookie h
  unfold flatDelete
  rw [h]
  dsimp only
  by_cases hlt : i < f.length - 1
  · rw [if_pos hlt]
    refine ⟨rfl, ?_⟩
    have hset : f.set i (f.getD (f.length - 1) emptyCookie) =
        f.take i ++ (f.getD (f.length - 1) emptyCookie) :: f.drop (i + 1) := by
      rw [List.set_eq_take_append_cons_drop, if_pos hi]
    rw [hset, List.eraseIdx_eq_take_drop_succ, List.take_append_eq_append_take]
    have hlenA : (f.take i).length = i := by
      simp [List.length_take]
      omega
    rw [hlenA, List.take_take, Nat.min_eq_right (by omega : i ≤ f.length - 1)]
    have hBlen : (f.drop (i + 1)).length = f.length - i - 1 := by
      simp [List.length_drop]
      omega
    have hBne : f.drop (i + 1) ≠ [] := by
      intro hc
      rw [hc] at hBlen
      simp at hBlen
      omega
    have htk : f.length - 1 - i = (f.drop (i + 1)).length - 1 + 1 := by omega
    rw [List.take_cons (by omega : 0 < f.length - 1 - i)]
    apply List.Perm.append_left
    have hdl : List.take (f.length - 1 - i - 1) (f.drop (i + 1)) =
        (f.drop (i + 1)).dropLast := by
      rw [List.dropLast_eq_take, hBlen]
      congr 1
      omega
    rw [hdl]
    have hx : f.getD (f.length - 1) emptyCookie = (f.drop (i + 1)).getLast hBne := by
      rw [List.getLast_eq_getElem, List.getElem_drop,
          List.getD_eq_getElem?_getD,
          List.getElem?_eq_getElem (by omega : f.length - 1 < f.length)]
      simp only [Option.getD_some]
      congr 1
      omega
    rw [hx]
    conv_rhs => rw [← List.dropLast_append_getLast hBne]
    exact (List.perm_append_singleton _ _).symm
  · rw [if_neg hlt]
    have hieq : i = f.length - 1 := by omega
    refine ⟨rfl, ?_⟩
    rw [List.eraseIdx_eq_take_drop_succ, hieq,
        List.drop_eq_nil_of_le (by omega), List.append_nil]

theorem find?_set_of_first {p : Cookie → Bool} {f : List Cookie} {i : Nat} {v : Cookie}
    (hi : i < f.length) (hv : p v = true)
    (hk : ∀ k, k < i → p (f.getD k emptyCookie) = false) :
    (f.set i v).find? p = some v := by
  rw [find?_eq_findIdx?_getD emptyCookie]
  have hidx : (f.set i v).findIdx? p = some i := by
    refine findIdx?_eq_some_of emptyCookie (by simpa using hi) ?_ ?_
    · rw [getD_set_self emptyCookie f i v hi]
      exact hv
    · intro k hk2
      rw [getD_set_ne emptyCookie f v (by omega)]
      exact hk k hk2
  rw [hidx]
  simp only [Option.map_some']
  rw [List.getD_eq_getElem?_getD, List.getElem?_set_self hi]
  rfl

theorem find?_append_singleton_of {p : Cookie → Bool} {f : List Cookie} {v : Cookie}
    (hall : ∀ c ∈ f, p c = false) (hv : p v = true) :
    (f ++ [v]).find? p = some v := by
  rw [List.find?_append]
  have h1 : f.find? p = none := List.find?_eq_none.mpr (fun x hx => by simp [hall x hx])
  rw [h1, List.find?_cons_of_pos _ hv]
  rfl

theorem jarUpdate_of_deleteRequest (cfg : JarConfig) (f : flat) (host dp : String)
    (rc : RawCookie) (now : Nat) (dh : String × Bool)
    (hdt : domainAndType cfg host rc.Domain = .ok dh)
    (hd : (resolveExpiration rc now).1 = true) :
    deletionOutcome f dh.1 (resolveCookiePath rc dp) rc.Name
      (jarUpdate cfg f host dp rc now) := by
  have hupd : jarUpdate cfg f host dp rc now =
      (if (flatDelete f dh.1 (resolveCookiePath rc dp) rc.Name).1 then .deleteCookie
       else .noSuchCookie,
       (flatDelete f dh.1 (resolveCookiePath rc dp) rc.Name).2) := by
    unfold jarUpdate
    rw [hdt]
    dsimp only
    rw [if_pos hd]
    by_cases hb : (flatDelete f dh.1 (resolveCookiePath rc dp) rc.Name).1
    · rw [if_pos hb, if_pos hb]
    · rw [if_neg hb, if_neg hb]
  rw [hupd]
  unfold deletionOutcome
  cases hfi : f.findIdx? (tripleMatch dh.1 (resolveCookiePath rc dp) rc.Name) with
  | some i =>
    obtain ⟨h1, h2⟩ := flatDelete_of_some hfi
    exact Or.inl ⟨i, rfl, by simp [h1], by simpa using h2⟩
  | none =>
    rw [flatDelete_of_none hfi]
    exact Or.inr ⟨rfl, by simp⟩

theorem jarUpdate_stored_expiry (cfg : JarConfig) (f : flat) (host dp : String)
    (rc : RawCookie) (now : Nat) (dh : String × Bool)
    (hdt : domainAndType cfg host rc.Domain = .ok dh)
    (hnd : (resolveExpiration rc now).1 = false) :
    (storedCookie (jarUpdate cfg f host dp rc now).2
        dh.1 (resolveCookiePath rc dp) rc.Name).map Cookie.Expires =
      some (resolveExpiration rc now).2 := by
  unfold jarUpdate
  rw [hdt]
  dsimp only
  rw [if_neg (by simp [hnd])]
  unfold flatFind
  cases hfi : f.findIdx? (tripleMatch dh.1 (resolveCookiePath rc dp) rc.Name) with
  | some i =>
    obtain ⟨hi, hp, hbef⟩ := findIdx?_some_spec emptyCookie hfi
    dsimp only
    by_cases hname : (f.getD i emptyCookie).Name.data.length = 0
    · rw [if_pos hname]
      unfold storedCookie
      rw [find?_set_of_first hi (by simp [tripleMatch]) hbef]
      rfl
    · rw [if_neg hname]
      unfold storedCookie
      have hfields := hp
      simp only [tripleMatch, Bool.and_eq_true, decide_eq_true_eq] at hfields
      obtain ⟨⟨hfd, hfp⟩, hfn⟩ := hfields
      rw [find?_set_of_first hi
        (by simp only [tripleMatch, Bool.and_eq_true, decide_eq_true_eq]
            exact ⟨⟨hfd, hfp⟩, hfn⟩) hbef]
      rfl
  | none =>
    have hall : ∀ x ∈ f, tripleMatch dh.1 (resolveCookiePath rc dp) rc.Name x = false :=
      List.findIdx?_eq_none_iff.mp hfi
    dsimp only
    cases hfe : f.findIdx? (fun c => c.Expired now) with
    | some ie =>
      obtain ⟨hie, -, -⟩ := findIdx?_some_spec emptyCookie hfe
      dsimp only
      have hcl : ((f.set ie { f.getD ie emptyCookie with Name := "" }).getD ie
          emptyCookie).Name.data.length = 0 := by
        rw [getD_set_self emptyCookie f ie _ hie]
        rfl
      rw [if_pos hcl]
      unfold storedCookie
      rw [find?_set_of_first (by simpa using hie) (by simp [tripleMatch]) ?hbef]
      · rfl
      case hbef =>
        intro k hk
        rw [getD_set_ne emptyCookie f _ (by omega)]
        exact hall _ (getD_mem_of_lt emptyCookie (by omega))
    | none =>
      dsimp only
      have hemp : ((f ++ [emptyCookie]).getD f.length emptyCookie) = emptyCookie := by
        rw [List.getD_eq_getElem?_getD, List.getElem?_append]
        simp
      rw [hemp]
      rw [if_pos (by rfl)]
      unfold storedCookie
      rw [find?_set_of_first (by simp) (by simp [tripleMatch]) ?hbef2]
      · rfl
      case hbef2 =>
        intro k hk
        have hkf : k < f.length := by simpa using hk
        rw [List.getD_eq_getElem?_getD, List.getElem?_append, if_pos hkf,
            ← List.getD_eq_getElem?_getD]
        exact hall _ (getD_mem_of_lt emptyCookie hkf)

/-- Claim C2 (amended): the update algorithm resolves expiration as
follows.  MaxAge < 0 is a deletion request; MaxAge > 0 stores expiry
`now + MaxAge` seconds; MaxAge == 0 with a non-zero Expires strictly
before now is a deletion request; MaxAge == 0 with a non-zero Expires at
or after now stores expiry = Expires (the claim said "in the future";
the boundary Expires == now is stored, not treated as a session cookie);
MaxAge == 0 without an Expires attribute stores a session cookie (zero
expiry).  A deletion request removes the (Domain, Path, Name) record if
present and is a no-op — jar unchanged, no error — if absent. -/
theorem update_expiration (cfg : JarConfig) (f : flat) (host dp : String)
    (rc : RawCookie) (now : Nat) (dh : String × Bool)
    (hdt : domainAndType cfg host rc.Domain = .ok dh) :
    (rc.MaxAge < 0 →
      deletionOutcome f dh.1 (resolveCookiePath rc dp) rc.Name
        (jarUpdate cfg f host dp rc now)) ∧
    (rc.MaxAge > 0 →
      (storedCookie (jarUpdate cfg f host dp rc now).2 dh.1
          (resolveCookiePath rc dp) rc.Name).map Cookie.Expires =
        some (now + rc.MaxAge.toNat * nsPerSecond)) ∧
    (rc.MaxAge = 0 → rc.Expires ≠ 0 → rc.Expires < now →
      deletionOutcome f dh.1 (resolveCookiePath rc dp) rc.Name
        (jarUpdate cfg f host dp rc now)) ∧
    (rc.MaxAge = 0 → rc.Expires ≠ 0 → now ≤ rc.Expires →
      (storedCookie (jarUpdate cfg f host dp rc now).2 dh.1
          (resolveCookiePath rc dp) rc.Name).map Cookie.Expires = some rc.Expires) ∧
    (rc.MaxAge = 0 → rc.Expires = 0 →
      (storedCookie (jarUpdate cfg f host dp rc now).2 dh.1
          (resolveCookiePath rc dp) rc.Name).map Cookie.Expires = some 0) := by
  refine ⟨?_, ?_, ?_, ?_, ?_⟩
  · intro h
    refine jarUpdate_of_deleteRequest cfg f host dp rc now dh hdt ?_
    unfold resolveExpiration
    rw [if_pos h]
  · intro h
    have h1 : resolveExpiration rc now = (false, now + rc.MaxAge.toNat * nsPerSecond) := by
      unfold resolveExpiration
      rw [if_neg (by omega), if_pos h]
    have h2 := jarUpdate_stored_expiry cfg f host dp rc now dh hdt (by rw [h1])
    rw [h1] at h2
    exact h2
  · intro h0 hne hlt
    refine jarUpdate_of_deleteRequest cfg f host dp rc now dh hdt ?_
    unfold resolveExpiration
    rw [if_neg (by omega), if_neg (by omega), if_pos hne, if_pos hlt]
  · intro h0 hne hge
    have h1 : resolveExpiration rc now = (false, rc.Expires) := by
      unfold resolveExpiration
      rw [if_neg (by omega), if_neg (by omega), if_pos hne, if_neg (by omega)]
    have h2 := jarUpdate_stored_expiry cfg f host dp rc now dh hdt (by rw [h1])
    rw [h1] at h2
    exact h2
  · intro h0 he0
    have h1 : resolveExpiration rc now = (false, 0) := by
      unfold resolveExpiration
      rw [if_neg (by omega), if_neg (by omega), if_neg (by simp [he0])]
    have h2 := jarUpdate_stored_expiry cfg f host dp rc now dh hdt (by rw [h1])
    rw [h1] at h2
    exact h2

/-- Witness for `update_expiration` at concrete inputs: a cookie with
MaxAge = 2 received at instant 100 is stored with expiry two seconds
later, and a MaxAge = -1 cookie against an empty jar is a no-op. -/
theorem update_expiration_witness :
    (domainAndType NewJarConfig "www.host.test" "" = .ok ("www.host.test", true)) ∧
    ((storedCookie (jarUpdate NewJarConfig [] "www.host.test" "/"
        { mkRaw "A" "a" "/" with MaxAge := 2 } 100).2
      "www.host.test" "/" "A").map Cookie.Expires = some (100 + 2 * nsPerSecond)) ∧
    deletionOutcome [] "www.host.test" "/" "A"
      (jarUpdate NewJarConfig [] "www.host.test" "/"
        { mkRaw "A" "a" "/" with MaxAge := -1 } 100) :=
  ⟨by decide,
   (update_expiration NewJarConfig [] "www.host.test" "/"
      { mkRaw "A" "a" "/" with MaxAge := 2 } 100 ("www.host.test", true)
      (by decide)).2.1 (by decide),
   (update_expiration NewJarConfig [] "www.host.test" "/"
      { mkRaw "A" "a" "/" with MaxAge := -1 } 100 ("www.host.test", true)
      (by decide)).1 (by decide)⟩

/-- Counterexample to claim C2 as stated: a received cookie with
MaxAge == 0 and a non-zero Expires exactly equal to the current instant
is neither "in the past" nor "in the future", so the claim's catch-all
case demands a session cookie (no expiry); the code stores
expiry = Expires = now — the stored record is not a session cookie. -/
theorem update_expiration_counterexample :
    ((jarUpdate NewJarConfig [] "www.host.test" "/"
        { mkRaw "A" "a" "/" with Expires := 100 } 100).2.map Cookie.Expires =
      [100]) ∧ (100 : Nat) ≠ 0 :=
  ⟨by decide, by decide⟩

/-! ## Claim C5 -/

theorem tripleMatch_eq_false_of_name {d p n : String} {c : Cookie} (h : n ≠ c.Name) :
    tripleMatch d p n c = false := by
  simp only [tripleMatch, Bool.and_eq_false_iff, decide_eq_false_iff_not]
  exact Or.inr h

theorem jarUpdate_fresh_create (cfg : JarConfig) (f : flat) (host dp : String)
    (rc : RawCookie) (now : Nat) (dh : String × Bool)
    (hdt : domainAndType cfg host rc.Domain = .ok dh)
    (hnd : (resolveExpiration rc now).1 = false)
    (hname : rc.Name ≠ "")
    (hfresh : f.findIdx? (tripleMatch dh.1 (resolveCookiePath rc dp) rc.Name) = none) :
    ∃ (g : flat) (i : Nat), i < g.length ∧
      (∀ c ∈ g, tripleMatch dh.1 (resolveCookiePath rc dp) rc.Name c = false) ∧
      jarUpdate cfg f host dp rc now =
        (updateAction.createCookie,
         g.set i (newStoredCookie rc dh.1 (resolveCookiePath rc dp) dh.2 now)) := by
  have hall : ∀ x ∈ f, tripleMatch dh.1 (resolveCookiePath rc dp) rc.Name x = false :=
    List.findIdx?_eq_none_iff.mp hfresh
  have hnm : rc.Name.data ≠ [] := by
    intro hc
    exact hname (congrArg String.mk hc)
  unfold jarUpdate
  rw [hdt]
  dsimp only
  rw [if_neg (by simp [hnd])]
  unfold flatFind
  rw [hfresh]
  cases hfe : f.findIdx? (fun c => c.Expired now) with
  | some ie =>
    obtain ⟨hie, -, -⟩ := findIdx?_some_spec emptyCookie hfe
    dsimp only
    refine ⟨f.set ie { f.getD ie emptyCookie with Name := "" }, ie, by simpa using hie,
      ?_, ?_⟩
    · intro c hc
      rcases List.mem_or_eq_of_mem_set hc with hcf | hceq
      · exact hall c hcf
      · subst hceq
        exact tripleMatch_eq_false_of_name hname
    · have hcl : ((f.set ie { f.getD ie emptyCookie with Name := "" }).getD ie
          emptyCookie).Name.data.length = 0 := by
        rw [getD_set_self emptyCookie f ie _ hie]
        rfl
      rw [if_pos hcl]
      rfl
  | none =>
    dsimp only
    refine ⟨f ++ [emptyCookie], f.length, by simp, ?_, ?_⟩
    · intro c hc
      rcases List.mem_append.mp hc with hcf | hce
      · exact hall c hcf
      · have hcv : c = emptyCookie := by simpa using hce
        subst hcv
        exact tripleMatch_eq_false_of_name hname
    · have hemp : ((f ++ [emptyCookie]).getD f.length emptyCookie) = emptyCookie := by
        rw [List.getD_eq_getElem?_getD, List.getElem?_append]
        simp
      rw [hemp, if_pos (by rfl)]
      rfl

theorem jarUpdate_existing_update (cfg : JarConfig) (s : flat) (host dp : String)
    (rc : RawCookie) (now : Nat) (dh : String × Bool) (j : Nat)
    (hdt : domainAndType cfg host rc.Domain = .ok dh)
    (hnd : (resolveExpiration rc now).1 = false)
    (hname : rc.Name ≠ "")
    (hex : s.findIdx? (tripleMatch dh.1 (resolveCookiePath rc dp) rc.Name) = some j) :
    jarUpdate cfg s host dp rc now =
      (updateAction.updateCookie,
       s.set j { s.getD j emptyCookie with
          HostOnly := dh.2, Value := rc.Value, HttpOnly := rc.HttpOnly,
          Expires := (resolveExpiration rc now).2, Secure := rc.Secure,
          LastAccess := now }) := by
  obtain ⟨hj, hp, -⟩ := findIdx?_some_spec emptyCookie hex
  unfold jarUpdate
  rw [hdt]
  dsimp only
  rw [if_neg (by simp [hnd])]
  unfold flatFind
  rw [hex]
  dsimp only
  have hn : rc.Name = (s.getD j emptyCookie).Name := by
    simp only [tripleMatch, Bool.and_eq_true, decide_eq_true_eq] at hp
    exact hp.2
  rw [if_neg (by
    intro hc
    apply hname
    rw [hn]
    cases hd : (s.getD j emptyCookie).Name with
    | mk l =>
      rw [hd] at hc
      simp at hc
      simp [hc])]

/-- Claim C5 (amended): applying the update algorithm twice with the
identical received cookie (non-empty name, not a deletion request at
either receipt, not previously stored) yields exactly one record with
the cookie's identity triple; the record's `Created` field is the one
set at first creation and is not reset by the second application; and
the record after the second application differs from the one after the
first only in `LastAccess` and in the recomputed expiry, which is
unchanged whenever the expiry does not derive from `MaxAge > 0`. -/
theorem setCookies_idempotent (cfg : JarConfig) (f : flat) (host dp : String)
    (rc : RawCookie) (now1 now2 : Nat) (dh : String × Bool)
    (hdt : domainAndType cfg host rc.Domain = .ok dh)
    (hname : rc.Name ≠ "")
    (hnd1 : (resolveExpiration rc now1).1 = false)
    (hnd2 : (resolveExpiration rc now2).1 = false)
    (hfresh : f.findIdx? (tripleMatch dh.1 (resolveCookiePath rc dp) rc.Name) = none) :
    (jarUpdate cfg f host dp rc now1).1 = updateAction.createCookie ∧
    (jarUpdate cfg (jarUpdate cfg f host dp rc now1).2 host dp rc now2).1 =
      updateAction.updateCookie ∧
    ((jarUpdate cfg f host dp rc now1).2.countP
      (tripleMatch dh.1 (resolveCookiePath rc dp) rc.Name) = 1) ∧
    ((jarUpdate cfg (jarUpdate cfg f host dp rc now1).2 host dp rc now2).2.countP
      (tripleMatch dh.1 (resolveCookiePath rc dp) rc.Name) = 1) ∧
    storedCookie (jarUpdate cfg f host dp rc now1).2
      dh.1 (resolveCookiePath rc dp) rc.Name =
      some (newStoredCookie rc dh.1 (resolveCookiePath rc dp) dh.2 now1) ∧
    storedCookie (jarUpdate cfg (jarUpdate cfg f host dp rc now1).2 host dp rc now2).2
      dh.1 (resolveCookiePath rc dp) rc.Name =
      some { newStoredCookie rc dh.1 (resolveCookiePath rc dp) dh.2 now1 with
              Expires := (resolveExpiration rc now2).2, LastAccess := now2 } ∧
    (rc.MaxAge ≤ 0 → (resolveExpiration rc now2).2 = (resolveExpiration rc now1).2) := by
  obtain ⟨g, i, hi, hgall, hr1⟩ :=
    jarUpdate_fresh_create cfg f host dp rc now1 dh hdt hnd1 hname hfresh
  have hr1a : (jarUpdate cfg f host dp rc now1).1 = updateAction.createCookie := by
    rw [hr1]
  have hr1s : (jarUpdate cfg f host dp rc now1).2 =
      g.set i (newStoredCookie rc dh.1 (resolveCookiePath rc dp) dh.2 now1) := by
    rw [hr1]
  have hmatch1 : tripleMatch dh.1 (resolveCookiePath rc dp) rc.Name
      (newStoredCookie rc dh.1 (resolveCookiePath rc dp) dh.2 now1) = true := by
    simp [tripleMatch, newStoredCookie]
  have hpre : ∀ k, k < i →
      tripleMatch dh.1 (resolveCookiePath rc dp) rc.Name
        ((g.set i (newStoredCookie rc dh.1 (resolveCookiePath rc dp) dh.2 now1)).getD
          k emptyCookie) = false := by
    intro k hk
    rw [getD_set_ne emptyCookie g _ (by omega)]
    exact hgall _ (getD_mem_of_lt emptyCookie (by omega))
  have hpreg : ∀ k, k < i →
      tripleMatch dh.1 (resolveCookiePath rc dp) rc.Name (g.getD k emptyCookie) =
        false := by
    intro k hk
    exact hgall _ (getD_mem_of_lt emptyCookie (by omega))
  have hfind1 : storedCookie
      (g.set i (newStoredCookie rc dh.1 (resolveCookiePath rc dp) dh.2 now1))
      dh.1 (resolveCookiePath rc dp) rc.Name =
      some (newStoredCookie rc dh.1 (resolveCookiePath rc dp) dh.2 now1) := by
    unfold storedCookie
    exact find?_set_of_first hi hmatch1 hpreg
  have hgi : i < g.length := hi
  have hidx : (g.set i (newStoredCookie rc dh.1 (resolveCookiePath rc dp) dh.2
      now1)).findIdx? (tripleMatch dh.1 (resolveCookiePath rc dp) rc.Name) = some i := by
    refine findIdx?_eq_some_of emptyCookie (by simpa using hgi) ?_ hpre
    rw [getD_set_self emptyCookie g i _ hgi]
    exact hmatch1
  have hgd : (g.set i (newStoredCookie rc dh.1 (resolveCookiePath rc dp) dh.2
      now1)).getD i emptyCookie =
      newStoredCookie rc dh.1 (resolveCookiePath rc dp) dh.2 now1 :=
    getD_set_self emptyCookie g i _ hgi
  have hr2 := jarUpdate_existing_update cfg
    (g.set i (newStoredCookie rc dh.1 (resolveCookiePath rc dp) dh.2 now1))
    host dp rc now2 dh i hdt hnd2 hname hidx
  rw [hgd] at hr2
  have hrec2 : ({ newStoredCookie rc dh.1 (resolveCookiePath rc dp) dh.2 now1 with
      HostOnly := dh.2, Value := rc.Value, HttpOnly := rc.HttpOnly,
      Expires := (resolveExpiration rc now2).2, Secure := rc.Secure,
      LastAccess := now2 } : Cookie) =
      { newStoredCookie rc dh.1 (resolveCookiePath rc dp) dh.2 now1 with
        Expires := (resolveExpiration rc now2).2, LastAccess := now2 } := rfl
  rw [hrec2] at hr2
  have hsetset : (g.set i (newStoredCookie rc dh.1 (resolveCookiePath rc dp) dh.2
      now1)).set i ({ newStoredCookie rc dh.1 (resolveCookiePath rc dp) dh.2 now1 with
        Expires := (resolveExpiration rc now2).2, LastAccess := now2 }) =
      g.set i ({ newStoredCookie rc dh.1 (resolveCookiePath rc dp) dh.2 now1 with
        Expires := (resolveExpiration rc now2).2, LastAccess := now2 }) :=
    List.set_set ..
  have hmatch2 : tripleMatch dh.1 (resolveCookiePath rc dp) rc.Name
      ({ newStoredCookie rc dh.1 (resolveCookiePath rc dp) dh.2 now1 with
        Expires := (resolveExpiration rc now2).2, LastAccess := now2 }) = true := by
    simp [tripleMatch, newStoredCookie]
  have hg0 : g.countP (tripleMatch dh.1 (resolveCookiePath rc dp) rc.Name) = 0 :=
    List.countP_eq_zero.mpr (fun a ha => by simp [hgall a ha])
  have hcnt : ∀ v : Cookie,
      tripleMatch dh.1 (resolveCookiePath rc dp) rc.Name v = true →
      (g.set i v).countP (tripleMatch dh.1 (resolveCookiePath rc dp) rc.Name) = 1 := by
    intro v hv
    rw [List.countP_set _ g i v hgi, hg0, hv]
    have : tripleMatch dh.1 (resolveCookiePath rc dp) rc.Name g[i] = false :=
      hgall _ (List.getElem_mem hgi)
    rw [this]
    simp
  refine ⟨hr1a, ?_, ?_, ?_, ?_, ?_, ?_⟩
  · rw [hr1s, hr2]
  · rw [hr1s]
    exact hcnt _ hmatch1
  · rw [hr1s, hr2, hsetset]
    exact hcnt _ hmatch2
  · rw [hr1s]
    exact hfind1
  · rw [hr1s, hr2, hsetset]
    unfold storedCookie
    exact find?_set_of_first hgi hmatch2 hpreg
  · intro hma
    have hz : rc.MaxAge = 0 := by
      rcases lt_or_eq_of_le hma with hlt | heq
      · exfalso
        have : (resolveExpiration rc now1).1 = true := by
          unfold resolveExpiration
          rw [if_pos hlt]
        rw [this] at hnd1
        exact Bool.true_eq_false.mp hnd1
      · exact heq
    by_cases he : rc.Expires = 0
    · unfold resolveExpiration
      rw [if_neg (by omega), if_neg (by omega), if_neg (by simp [he]),
          if_neg (by omega), if_neg (by omega), if_neg (by simp [he])]
    · have hlt1 : ¬ rc.Expires < now1 := by
        intro hc
        have : (resolveExpiration rc now1).1 = true := by
          unfold resolveExpiration
          rw [if_neg (by omega), if_neg (by omega), if_pos he, if_pos hc]
        rw [this] at hnd1
        exact Bool.true_eq_false.mp hnd1
      have hlt2 : ¬ rc.Expires < now2 := by
        intro hc
        have : (resolveExpiration rc now2).1 = true := by
          unfold resolveExpiration
          rw [if_neg (by omega), if_neg (by omega), if_pos he, if_pos hc]
        rw [this] at hnd2
        exact Bool.true_eq_false.mp hnd2
      unfold resolveExpiration
      rw [if_neg (by omega), if_neg (by omega), if_pos he, if_neg hlt2,
          if_neg (by omega), if_neg (by omega), if_pos he, if_neg hlt1]

/-- Witness for `setCookies_idempotent`: a session cookie received twice
(at instants 100 and 200) is stored once, with Created = 100 and only
LastAccess changed by the second receipt. -/
theorem setCookies_idempotent_witness :
    (domainAndType NewJarConfig "www.host.test" "" = .ok ("www.host.test", true) ∧
     (resolveExpiration (mkRaw "A" "a" "/") 100).1 = false) ∧
    storedCookie (jarUpdate NewJarConfig
        (jarUpdate NewJarConfig [] "www.host.test" "/" (mkRaw "A" "a" "/") 100).2
        "www.host.test" "/" (mkRaw "A" "a" "/") 200).2
      "www.host.test" (resolveCookiePath (mkRaw "A" "a" "/") "/") "A" =
      some { newStoredCookie (mkRaw "A" "a" "/") "www.host.test"
              (resolveCookiePath (mkRaw "A" "a" "/") "/") true 100 with
             Expires := (resolveExpiration (mkRaw "A" "a" "/") 200).2,
             LastAccess := 200 } :=
  ⟨⟨by decide, by decide⟩,
   (setCookies_idempotent NewJarConfig [] "www.host.test" "/" (mkRaw "A" "a" "/")
      100 200 ("www.host.test", true) (by decide) (by decide) (by decide) (by decide)
      (by decide)).2.2.2.2.2.1⟩

/-- Counterexample to claim C5 as stated: for a received cookie with
MaxAge = 1, the expiry stored at the second receipt (instant 200) is
recomputed from the later clock reading, so the stored content differs
from the first application (instant 100) in more than LastAccess. -/
theorem setCookies_idempotent_counterexample :
    ((jarUpdate NewJarConfig [] "www.host.test" "/"
        { mkRaw "A" "a" "/" with MaxAge := 1 } 100).2.map Cookie.Expires =
      [100 + nsPerSecond]) ∧
    ((jarUpdate NewJarConfig
        (jarUpdate NewJarConfig [] "www.host.test" "/"
          { mkRaw "A" "a" "/" with MaxAge := 1 } 100).2
        "www.host.test" "/" { mkRaw "A" "a" "/" with MaxAge := 1 } 200).2.map
        Cookie.Expires = [200 + nsPerSecond]) ∧
    100 + nsPerSecond ≠ 200 + nsPerSecond :=
  ⟨by decide, by decide, by decide⟩

/-! ## Claim C1 -/

theorem sendLe_iff (a b : Cookie) :
    sendLe a b = true ↔
      (a.Path.data.length > b.Path.data.length ∨
       (a.Path.data.length = b.Path.data.length ∧ a.Created ≤ b.Created)) := by
  unfold sendLe sendLess
  by_cases h : b.Path.data.length = a.Path.data.length
  · rw [if_pos h]
    simp only [Bool.not_eq_true', decide_eq_false_iff_not, Nat.not_lt]
    omega
  · rw [if_neg h]
    simp only [Bool.not_eq_true', decide_eq_false_iff_not, Nat.not_lt]
    omega

instance : IsTotal Cookie sendOrd := by
  constructor
  intro a b
  simp only [sendOrd, sendLe_iff]
  omega

instance : IsTrans Cookie sendOrd := by
  constructor
  intro a b c
  simp only [sendOrd, sendLe_iff]
  omega

theorem flatRetrieve_fst (f : flat) (https : Bool) (host path : String) (now : Nat) :
    (flatRetrieve f https host path now).1 =
      f.filter (fun c => !c.Expired now && c.shouldSend https host path) := by
  unfold flatRetrieve
  dsimp only
  split <;> rfl

/-- Claim C1: `Cookies` returns exactly the name/value pairs of the
stored cookies that are not expired, domain-match the request host,
path-match the (normalised) request path and are secure-compatible —
the returned pairs are the projection of a selection list that is a
permutation of that filter of the store — and the selection is ordered
with longer cookie paths first, ties broken by earlier creation time. -/
theorem cookies_spec (f : flat) (https : Bool) (host upath : String) (now : Nat) :
    (jarCookies f https host upath now).1 =
      (jarSelection f https host (if upath = "" then "/" else upath) now).map
        (fun c => (c.Name, c.Value)) ∧
    (jarSelection f https host (if upath = "" then "/" else upath) now).Perm
      (f.filter (fun c => !c.Expired now &&
        c.shouldSend https host (if upath = "" then "/" else upath))) ∧
    List.Pairwise (fun a b : Cookie =>
        a.Path.data.length > b.Path.data.length ∨
        (a.Path.data.length = b.Path.data.length ∧ a.Created ≤ b.Created))
      (jarSelection f https host (if upath = "" then "/" else upath) now) := by
  refine ⟨rfl, ?_, ?_⟩
  · unfold jarSelection
    rw [flatRetrieve_fst]
    exact List.perm_insertionSort sendOrd _
  · have hs := List.sorted_insertionSort sendOrd
      ((flatRetrieve f https host (if upath = "" then "/" else upath) now).1)
    exact hs.imp (fun hab => (sendLe_iff _ _).mp hab)

/-! ## Claim C8: correctness of the compaction loop -/

theorem take_set_comm {α} (l : List α) (i m : Nat) (v : α) (h : i < m) :
    (l.set i v).take m = (l.take m).set i v := by
  apply List.ext_getElem?
  intro k
  by_cases hkm : k < m
  · by_cases hik : i = k
    · subst hik
      by_cases hil : i < l.length
      · simp [List.getElem?_take, List.getElem?_set, hkm, hil, List.length_take]
      · simp [List.getElem?_take, List.getElem?_set, hkm, hil, List.length_take,
          List.getElem?_eq_none_iff]
    · simp [List.getElem?_take, List.getElem?_set, hkm, hik]
  · simp [List.getElem?_take, List.getElem?_set, hkm]
    rw [if_neg (by omega : ¬ i = k)]

theorem take_succ_getD {α} (d : α) (l : List α) (a : Nat) (h : a < l.length) :
    l.take (a + 1) = l.take a ++ [l.getD a d] := by
  rw [List.take_succ, List.getD_eq_getElem?_getD, List.getElem?_eq_getElem h]
  rfl

theorem getD_take {α} (d : α) (l : List α) {k m : Nat} (h : k < m) :
    (l.take m).getD k d = l.getD k d := by
  rw [List.getD_eq_getElem?_getD, List.getD_eq_getElem?_getD,
      List.getElem?_take, if_pos h]

theorem getD_drop {α} (d : α) (l : List α) (a : Nat) (k : Nat) (h : a + k < l.length) :
    (l.drop a).getD k d = l.getD (a + k) d := by
  rw [List.getD_eq_getElem?_getD, List.getD_eq_getElem?_getD,
      List.getElem?_eq_getElem (l := l.drop a) (by simp [List.length_drop]; omega),
      List.getElem?_eq_getElem h]
  simp [List.getElem_drop]

theorem seg_all_of_getD {p : Cookie → Bool} {l : List Cookie} {a b : Nat} {v : Bool}
    (hall : ∀ k, a ≤ k → k < b → p (l.getD k emptyCookie) = v) :
    ∀ c ∈ (l.drop a).take (b - a), p c = v := by
  intro c hc
  obtain ⟨k, hk, hck⟩ := List.mem_iff_getElem.mp hc
  have hk1 : k < b - a := by
    have := List.length_take (b - a) (l.drop a)
    omega
  have hk2 : a + k < l.length := by
    have := List.length_take (b - a) (l.drop a)
    have := List.length_drop a l
    omega
  have : c = l.getD (a + k) emptyCookie := by
    rw [← hck, List.getElem_take, List.getElem_drop,
        List.getD_eq_getElem?_getD, List.getElem?_eq_getElem hk2]
    rfl
  rw [this]
  exact hall (a + k) (by omega) (by omega)

theorem filter_all_true {p : Cookie → Bool} {l : List Cookie}
    (h : ∀ c ∈ l, p c = true) : l.filter p = l :=
  List.filter_eq_self.mpr h

theorem filter_all_false {p : Cookie → Bool} {l : List Cookie}
    (h : ∀ c ∈ l, p c = false) : l.filter p = [] :=
  List.filter_eq_nil_iff.mpr (fun c hc => by simp [h c hc])

theorem filter_set_perm {p : Cookie → Bool} {l : List Cookie} {a : Nat} {v : Cookie}
    (ha : a < l.length) (hold : p (l.getD a emptyCookie) = false) (hv : p v = true) :
    ((l.set a v).filter p).Perm (v :: l.filter p) := by
  have hdec : l = l.take a ++ l.getD a emptyCookie :: l.drop (a + 1) := by
    have h1 : l.getD a emptyCookie = l[a] := by
      rw [List.getD_eq_getElem?_getD, List.getElem?_eq_getElem ha]
      rfl
    rw [h1, List.getElem_cons_drop, List.take_append_drop]
  have hset : l.set a v = l.take a ++ v :: l.drop (a + 1) := by
    rw [List.set_eq_take_append_cons_drop, if_pos ha]
  rw [hset, List.filter_append]
  conv_rhs => rw [hdec]
  rw [List.filter_append]
  simp only [List.filter_cons, hv, hold]
  exact List.perm_middle

theorem nextExpiredAux_spec (f : List Cookie) (now j : Nat) :
    ∀ fuel i, i ≤ j → j ≤ i + fuel →
      i ≤ nextExpiredAux f now j fuel i ∧
      nextExpiredAux f now j fuel i ≤ j ∧
      (∀ k, i ≤ k → k < nextExpiredAux f now j fuel i →
        (f.getD k emptyCookie).Expired now = false) ∧
      (nextExpiredAux f now j fuel i < j →
        (f.getD (nextExpiredAux f now j fuel i) emptyCookie).Expired now = true) := by
  intro fuel
  induction fuel with
  | zero =>
    intro i h1 h2
    simp only [nextExpiredAux]
    exact ⟨le_rfl, h1, fun k hk1 hk2 => absurd hk2 (by omega), fun hc => absurd hc (by omega)⟩
  | succ fuel ih =>
    intro i h1 h2
    simp only [nextExpiredAux]
    by_cases hij : i < j
    · rw [if_pos hij]
      by_cases hexp : (f.getD i emptyCookie).Expired now = true
      · rw [if_pos hexp]
        exact ⟨le_rfl, by omega, fun k hk1 hk2 => absurd hk2 (by omega), fun _ => hexp⟩
      · rw [if_neg hexp]
        obtain ⟨a, b, c, d⟩ := ih (i + 1) (by omega) (by omega)
        refine ⟨by omega, b, ?_, d⟩
        intro k hk1 hk2
        by_cases hk : k = i
        · subst hk
          exact Bool.eq_false_iff.mpr hexp
        · exact c k (by omega) hk2
    · rw [if_neg hij]
      exact ⟨le_rfl, by omega, fun k hk1 hk2 => absurd hk2 (by omega),
        fun hc => absurd hc (by omega)⟩

theorem nextExpired_spec (f : List Cookie) (now i j : Nat) (h : i ≤ j) :
    i ≤ nextExpired f now i j ∧
    nextExpired f now i j ≤ j ∧
    (∀ k, i ≤ k → k < nextExpired f now i j →
      (f.getD k emptyCookie).Expired now = false) ∧
    (nextExpired f now i j < j →
      (f.getD (nextExpired f now i j) emptyCookie).Expired now = true) :=
  nextExpiredAux_spec f now j (j - i) i h (by omega)

theorem backScan_spec (f : List Cookie) (now i : Nat) :
    ∀ j n,
      (backScan f now i j n).2 = n + (j - (backScan f now i j n).1) ∧
      (∀ k, (backScan f now i j n).1 < k → k ≤ j →
        (f.getD k emptyCookie).Expired now = true) ∧
      (i ≤ j → i ≤ (backScan f now i j n).1) ∧
      ((backScan f now i j n).1 ≤ i ∨
       (f.getD (backScan f now i j n).1 emptyCookie).Expired now = false) := by
  intro j
  induction j with
  | zero =>
    intro n
    simp only [backScan]
    exact ⟨by omega, fun k hk1 hk2 => absurd hk1 (by omega), fun h => by omega,
      Or.inl (by omega)⟩
  | succ j ih =>
    intro n
    simp only [backScan]
    by_cases hc : i < j + 1 ∧ (f.getD (j + 1) emptyCookie).Expired now = true
    · rw [if_pos (by rw [Bool.and_eq_true]; exact ⟨by simpa using hc.1, hc.2⟩)]
      obtain ⟨a, b, c, d⟩ := ih (n + 1)
      have hle := backScan_fst_le f now i j (n + 1)
      refine ⟨by omega, ?_, fun _ => c (by omega), d⟩
      intro k hk1 hk2
      by_cases hk : k = j + 1
      · subst hk
        exact hc.2
      · exact b k hk1 (by omega)
    · rw [if_neg (by
        rw [Bool.and_eq_true]
        intro hx
        exact hc ⟨by simpa using hx.1, hx.2⟩)]
      refine ⟨by omega, fun k hk1 hk2 => absurd hk1 (by omega), fun h => by omega, ?_⟩
      by_cases hi : j + 1 ≤ i
      · exact Or.inl hi
      · right
        by_cases he : (f.getD (j + 1) emptyCookie).Expired now = true
        · exact absurd ⟨by omega, he⟩ hc
        · exact Bool.eq_false_iff.mpr he

theorem take_all_of_getD {p : Cookie → Bool} {l : List Cookie} {b : Nat} {v : Bool}
    (hall : ∀ k, k < b → p (l.getD k emptyCookie) = v) :
    ∀ c ∈ l.take b, p c = v := by
  have h := seg_all_of_getD (l := l) (a := 0) (b := b) (v := v)
    (fun k _ hk2 => hall k hk2)
  simpa using h

theorem take_decomp_seg {α} (l : List α) {a b : Nat} (hab : a ≤ b) :
    l.take b = l.take a ++ (l.drop a).take (b - a) := by
  rw [← List.take_add]
  congr 1
  omega

theorem expiredCountP_take_decomp (f : List Cookie) (now : Nat) {a b : Nat}
    (hab : a ≤ b) (hb : b ≤ f.length)
    (hseg : ∀ k, a ≤ k → k < b → (f.getD k emptyCookie).Expired now = true) :
    expiredCountP (f.take b) now = expiredCountP (f.take a) now + (b - a) := by
  unfold expiredCountP
  rw [take_decomp_seg f hab, List.countP_append]
  congr 1
  have hall := seg_all_of_getD (p := fun c => c.Expired now) hseg
  rw [List.countP_eq_length_filter, filter_all_true hall, List.length_take,
      List.length_drop]
  omega

theorem liveFilter_take_decomp (f : List Cookie) (now : Nat) {a b : Nat}
    (hab : a ≤ b)
    (hseg : ∀ k, a ≤ k → k < b → (f.getD k emptyCookie).Expired now = true) :
    liveFilter (f.take b) now = liveFilter (f.take a) now := by
  unfold liveFilter
  rw [take_decomp_seg f hab, List.filter_append]
  have : ∀ c ∈ (f.drop a).take (b - a), (!c.Expired now) = false := by
    intro c hc
    have := seg_all_of_getD (p := fun c => c.Expired now) hseg c hc
    simp only at this
    simp [this]
  rw [filter_all_false this, List.append_nil]

theorem expiredCountP_take_succ (f : List Cookie) (now : Nat) {a : Nat}
    (ha : a < f.length) :
    expiredCountP (f.take (a + 1)) now =
      expiredCountP (f.take a) now +
        (if (f.getD a emptyCookie).Expired now then 1 else 0) := by
  unfold expiredCountP
  rw [take_succ_getD emptyCookie f a ha, List.countP_append]
  congr 1
  rw [List.countP_cons, List.countP_nil]
  by_cases h : (f.getD a emptyCookie).Expired now = true
  · rw [if_pos h]
  · rw [if_neg h]

theorem liveFilter_take_succ_live (f : List Cookie) (now : Nat) {a : Nat}
    (ha : a < f.length) (hl : (f.getD a emptyCookie).Expired now = false) :
    liveFilter (f.take (a + 1)) now =
      liveFilter (f.take a) now ++ [f.getD a emptyCookie] := by
  unfold liveFilter
  rw [take_succ_getD emptyCookie f a ha, List.filter_append]
  congr 1
  have hv : (!(f.getD a emptyCookie).Expired now) = true := by
    rw [hl]
    rfl
  rw [List.filter_cons, if_pos hv, List.filter_nil]

theorem expiredCountP_take_pos (f : List Cookie) (now : Nat) {k b : Nat}
    (hk : k < b) (hb : b ≤ f.length)
    (he : (f.getD k emptyCookie).Expired now = true) :
    0 < expiredCountP (f.take b) now := by
  unfold expiredCountP
  rw [List.countP_pos]
  refine ⟨f.getD k emptyCookie, ?_, he⟩
  have hkl : k < (f.take b).length := by
    rw [List.length_take]
    omega
  have := getD_mem_of_lt emptyCookie (l := f.take b) (k := k) hkl
  rwa [getD_take emptyCookie f hk] at this

theorem cleanupLoopAux_spec (now num : Nat) :
    ∀ (fuel : Nat) (f : List Cookie) (i j n : Nat) (keep : List Cookie),
      j < fuel → i ≤ j → j ≤ f.length →
      (∀ k, k < i → (f.getD k emptyCookie).Expired now = false) →
      (liveFilter (f.take j) now).Perm keep →
      expiredCountP (f.take j) now + n = num →
      ((cleanupLoopAux now num fuel f i j n).1.take
          (cleanupLoopAux now num fuel f i j n).2).Perm keep ∧
      (∀ c ∈ (cleanupLoopAux now num fuel f i j n).1.take
          (cleanupLoopAux now num fuel f i j n).2, c.Expired now = false) := by
  intro fuel
  induction fuel with
  | zero =>
    intro f i j n keep hfuel
    exact absurd hfuel (by omega)
  | succ fuel ih =>
    intro f i j n keep hfuel hij hjl hpre hperm hcnt
    simp only [cleanupLoopAux]
    by_cases hn : n < num
    case neg =>
      rw [if_neg hn]
      have hz : expiredCountP (f.take j) now = 0 := by omega
      have hall : ∀ c ∈ f.take j, c.Expired now = false := by
        intro c hc
        have := List.countP_eq_zero.mp hz c hc
        exact Bool.eq_false_iff.mpr this
      have hlf : liveFilter (f.take j) now = f.take j := by
        unfold liveFilter
        refine filter_all_true ?_
        intro c hc
        rw [hall c hc]
        rfl
      rw [hlf] at hperm
      exact ⟨hperm, hall⟩
    case pos =>
      rw [if_pos hn]
      obtain ⟨hnei, hnej, hnelive, hneexp⟩ := nextExpired_spec f now i j hij
      have hlive_below : ∀ k, k < nextExpired f now i j →
          (f.getD k emptyCookie).Expired now = false := by
        intro k hk
        by_cases hki : k < i
        · exact hpre k hki
        · exact hnelive k (by omega) hk
      have hi'lt : nextExpired f now i j < j := by
        by_contra hge
        have hi'j : nextExpired f now i j = j := by omega
        have hzero : expiredCountP (f.take j) now = 0 := by
          unfold expiredCountP
          rw [List.countP_eq_zero]
          intro c hc
          have := take_all_of_getD (p := fun c => c.Expired now) (v := false)
            (b := j) (fun k hk => hlive_below k (by omega)) c hc
          simp only at this
          simp [this]
        omega
      have hexpi' : (f.getD (nextExpired f now i j) emptyCookie).Expired now = true :=
        hneexp hi'lt
      -- the live prefix [0, i') equals its own live filter
      have hprefix_all : ∀ c ∈ f.take (nextExpired f now i j), c.Expired now = false :=
        take_all_of_getD (p := fun c => c.Expired now) (v := false) hlive_below
      have hprefix_lf : liveFilter (f.take (nextExpired f now i j)) now =
          f.take (nextExpired f now i j) := by
        unfold liveFilter
        refine filter_all_true ?_
        intro c hc
        rw [hprefix_all c hc]
        rfl
      by_cases hA : nextExpired f now i j = j - 1
      · rw [if_pos hA]
        -- the store is returned unchanged, resliced to j - 1 = i'
        have hj1 : nextExpired f now i j + 1 = j := by omega
        have hfile : liveFilter (f.take j) now =
            liveFilter (f.take (nextExpired f now i j)) now :=
          liveFilter_take_decomp f now (a := nextExpired f now i j) (b := j)
            (by omega)
            (fun k hk1 hk2 => by
              have hkk : k = nextExpired f now i j := by omega
              rw [hkk]
              exact hexpi')
        rw [hfile, hprefix_lf] at hperm
        rw [← hA]
        exact ⟨hperm, hprefix_all⟩
      · rw [if_neg hA]
        have hi'j1 : nextExpired f now i j < j - 1 := by omega
        obtain ⟨hs2, hs3, hs4, hs5⟩ :=
          backScan_spec f now (nextExpired f now i j) (j - 1) n
        have hble := backScan_fst_le f now (nextExpired f now i j) (j - 1) n
        have hp1ge : nextExpired f now i j ≤
            (backScan f now (nextExpired f now i j) (j - 1) n).1 :=
          hs4 (by omega)
        by_cases hE : (backScan f now (nextExpired f now i j) (j - 1) n).1 ≤
            nextExpired f now i j ∨
            (backScan f now (nextExpired f now i j) (j - 1) n).2 = num
        · rw [if_pos hE]
          have hp1 : (backScan f now (nextExpired f now i j) (j - 1) n).1 =
              nextExpired f now i j := by
            rcases hE with h | h
            · omega
            · by_contra hne
              have hgt : nextExpired f now i j <
                  (backScan f now (nextExpired f now i j) (j - 1) n).1 := by omega
              have hcdec : expiredCountP (f.take j) now =
                  expiredCountP
                    (f.take ((backScan f now (nextExpired f now i j) (j - 1) n).1 + 1))
                    now +
                    (j - ((backScan f now (nextExpired f now i j) (j - 1) n).1 + 1)) :=
                expiredCountP_take_decomp f now (by omega) hjl
                  (fun k hk1 hk2 => hs3 k (by omega) (by omega))
              have hpos : 0 < expiredCountP
                  (f.take ((backScan f now (nextExpired f now i j) (j - 1) n).1 + 1))
                  now :=
                expiredCountP_take_pos f now (by omega) (by omega) hexpi'
              omega
          rw [hp1]
          have hfile : liveFilter (f.take j) now =
              liveFilter (f.take (nextExpired f now i j)) now := by
            have h1 : liveFilter (f.take j) now =
                liveFilter (f.take (nextExpired f now i j + 1)) now :=
              liveFilter_take_decomp f now (by omega)
                (fun k hk1 hk2 => hs3 k (by omega) (by omega))
            have h2 : liveFilter (f.take (nextExpired f now i j + 1)) now =
                liveFilter (f.take (nextExpired f now i j)) now :=
              liveFilter_take_decomp f now (by omega)
                (fun k hk1 hk2 => by
                  have : k = nextExpired f now i j := by omega
                  rw [this]
                  exact hexpi')
            rw [h1, h2]
          rw [hfile, hprefix_lf] at hperm
          exact ⟨hperm, hprefix_all⟩
        · rw [if_neg hE]
          have hEp : nextExpired f now i j <
              (backScan f now (nextExpired f now i j) (j - 1) n).1 ∧
              (backScan f now (nextExpired f now i j) (j - 1) n).2 ≠ num := by
            constructor
            · by_contra hc
              exact hE (Or.inl (by omega))
            · intro hc
              exact hE (Or.inr hc)
          -- abbreviations for this branch
          have hp1j : (backScan f now (nextExpired f now i j) (j - 1) n).1 ≤ j - 1 :=
            hble
          have hp1len : (backScan f now (nextExpired f now i j) (j - 1) n).1 <
              f.length := by omega
          have hvlive : (f.getD (backScan f now (nextExpired f now i j) (j - 1) n).1
              emptyCookie).Expired now = false := by
            rcases hs5 with h | h
            · omega
            · exact h
          -- the segment (p.1, j) is all expired
          have hseg : ∀ k, (backScan f now (nextExpired f now i j) (j - 1) n).1 + 1 ≤ k →
              k < j → (f.getD k emptyCookie).Expired now = true :=
            fun k hk1 hk2 => hs3 k (by omega) (by omega)
          -- live filter of take j in terms of take p.1
          have hlf1 : liveFilter (f.take j) now =
              liveFilter
                (f.take ((backScan f now (nextExpired f now i j) (j - 1) n).1 + 1)) now :=
            liveFilter_take_decomp f now (by omega) hseg
          have hlf2 : liveFilter
              (f.take ((backScan f now (nextExpired f now i j) (j - 1) n).1 + 1)) now =
              liveFilter (f.take (backScan f now (nextExpired f now i j) (j - 1) n).1)
                now ++
              [f.getD (backScan f now (nextExpired f now i j) (j - 1) n).1 emptyCookie] :=
            liveFilter_take_succ_live f now hp1len hvlive
          -- counts of take j in terms of take p.1
          have hc1 : expiredCountP (f.take j) now =
              expiredCountP
                (f.take ((backScan f now (nextExpired f now i j) (j - 1) n).1 + 1)) now +
                (j - ((backScan f now (nextExpired f now i j) (j - 1) n).1 + 1)) :=
            expiredCountP_take_decomp f now (by omega) hjl hseg
          have hc2 : expiredCountP
              (f.take ((backScan f now (nextExpired f now i j) (j - 1) n).1 + 1)) now =
              expiredCountP (f.take (backScan f now (nextExpired f now i j) (j - 1) n).1)
                now := by
            rw [expiredCountP_take_succ f now hp1len, hvlive]
            simp
          have hcpos : 0 < expiredCountP
              (f.take (backScan f now (nextExpired f now i j) (j - 1) n).1) now :=
            expiredCountP_take_pos f now (by omega) (by omega) hexpi'
          -- apply the induction hypothesis to the new state
          refine ih (f.set (nextExpired f now i j)
              (f.getD (backScan f now (nextExpired f now i j) (j - 1) n).1 emptyCookie))
            (nextExpired f now i j + 1)
            (backScan f now (nextExpired f now i j) (j - 1) n).1
            ((backScan f now (nextExpired f now i j) (j - 1) n).2 + 1)
            keep (by omega) (by omega) (by simpa using (by omega : (backScan f now
              (nextExpired f now i j) (j - 1) n).1 ≤ f.length)) ?_ ?_ ?_
          · -- live prefix of the new state
            intro k hk
            by_cases hki : k = nextExpired f now i j
            · subst hki
              rw [getD_set_self emptyCookie f _ _ (by omega)]
              exact hvlive
            · rw [getD_set_ne emptyCookie f _ (by omega)]
              exact hlive_below k (by omega)
          · -- the live multiset is preserved
            rw [take_set_comm f _ _ _ (by omega)]
            have hperm1 : (liveFilter
                ((f.take (backScan f now (nextExpired f now i j) (j - 1) n).1).set
                  (nextExpired f now i j)
                  (f.getD (backScan f now (nextExpired f now i j) (j - 1) n).1
                    emptyCookie)) now).Perm
                (f.getD (backScan f now (nextExpired f now i j) (j - 1) n).1 emptyCookie ::
                  liveFilter (f.take (backScan f now (nextExpired f now i j) (j - 1) n).1)
                    now) := by
              unfold liveFilter
              refine filter_set_perm ?_ ?_ ?_
              · rw [List.length_take]
                omega
              · rw [getD_take emptyCookie f (by omega)]
                rw [hexpi']
                rfl
              · rw [hvlive]
                rfl
            refine hperm1.trans ?_
            have : (f.getD (backScan f now (nextExpired f now i j) (j - 1) n).1
                emptyCookie ::
                liveFilter (f.take (backScan f now (nextExpired f now i j) (j - 1) n).1)
                  now).Perm (liveFilter (f.take j) now) := by
              rw [hlf1, hlf2]
              exact (List.perm_append_singleton _ _).symm
            exact this.trans hperm
          · -- the expired count bookkeeping
            rw [take_set_comm f _ _ _ (by omega)]
            have hset : expiredCountP
                ((f.take (backScan f now (nextExpired f now i j) (j - 1) n).1).set
                  (nextExpired f now i j)
                  (f.getD (backScan f now (nextExpired f now i j) (j - 1) n).1
                    emptyCookie)) now =
                expiredCountP
                  (f.take (backScan f now (nextExpired f now i j) (j - 1) n).1) now - 1 := by
              have hlt : nextExpired f now i j <
                  (f.take (backScan f now (nextExpired f now i j) (j - 1) n).1).length := by
                rw [List.length_take]
                omega
              unfold expiredCountP
              rw [List.countP_set _ _ _ _ hlt]
              have hge : (f.take (backScan f now (nextExpired f now i j) (j - 1) n).1)[
                  nextExpired f now i j] = f.getD (nextExpired f now i j) emptyCookie := by
                rw [List.getElem_take, List.getD_eq_getElem?_getD,
                    List.getElem?_eq_getElem (by omega)]
                rfl
              rw [hge, hexpi', hvlive]
              simp
            rw [hset]
            have hs2' := hs2
            omega

/-- `cleanup`, called with the exact number of expired entries, compacts
the store to exactly the live cookies (as a multiset) and nothing else. -/
theorem flatCleanup_perm (f : flat) (now : Nat) :
    ((flatCleanup f (expiredCountP f now) now).Perm (liveFilter f now)) ∧
    (∀ c ∈ flatCleanup f (expiredCountP f now) now, c.Expired now = false) := by
  unfold flatCleanup
  by_cases h0 : expiredCountP f now = 0
  · rw [if_pos h0]
    have hall : ∀ c ∈ f, c.Expired now = false := by
      intro c hc
      exact Bool.eq_false_iff.mpr (List.countP_eq_zero.mp h0 c hc)
    have hlf : liveFilter f now = f := by
      unfold liveFilter
      refine filter_all_true ?_
      intro c hc
      rw [hall c hc]
      rfl
    rw [hlf]
    exact ⟨List.Perm.refl f, hall⟩
  · rw [if_neg h0]
    by_cases hL : expiredCountP f now = f.length
    · rw [if_pos hL]
      have hall : ∀ c ∈ f, c.Expired now = true := by
        have := List.countP_eq_length.mp hL
        intro c hc
        exact this c hc
      have hlf : liveFilter f now = [] := by
        unfold liveFilter
        refine filter_all_false ?_
        intro c hc
        rw [hall c hc]
        rfl
      rw [hlf]
      exact ⟨List.Perm.refl [], by intro c hc; simp at hc⟩
    · rw [if_neg hL]
      have h := cleanupLoopAux_spec now (expiredCountP f now) (f.length + 1)
        f 0 f.length 0 (liveFilter f now)
        (by omega) (by omega) (by omega)
        (fun k hk => absurd hk (by omega))
        (by rw [List.take_length])
        (by rw [List.take_length]; omega)
      exact h

/-- C8: during `retrieve` the flat store is compacted exactly when the
number of expired entries exceeds 10 and exceeds a fifth of the store
(`expired > len/5` in integer division, i.e. `len < 5 * expired`); a
triggered compaction leaves exactly the live entries present before, as
a multiset (no live entry lost, no duplicate introduced, nothing expired
kept), and an untriggered retrieval leaves the store untouched.  The
claim's particular instance is wrong: a store of 10 entries with 6
expired never reaches the absolute threshold, so no retrieval compacts
it to its 4 live entries (see the counterexample). -/
theorem flatRetrieve_compaction (f : flat) (https : Bool) (host path : String)
    (now : Nat) :
    (10 < expiredCountP f now ∧ f.length < 5 * expiredCountP f now →
      ((flatRetrieve f https host path now).2.Perm (liveFilter f now) ∧
        ∀ c ∈ (flatRetrieve f https host path now).2, c.Expired now = false)) ∧
    (¬ (10 < expiredCountP f now ∧ f.length < 5 * expiredCountP f now) →
      (flatRetrieve f https host path now).2 = f) := by
  have hexp : (f.filter (fun c => c.Expired now)).length = expiredCountP f now :=
    (List.countP_eq_length_filter _ _).symm
  constructor
  · intro h
    have hcond : (expiredCountP f now > 10 &&
        expiredCountP f now > f.length / 5) = true := by
      rw [Bool.and_eq_true]
      exact ⟨decide_eq_true (by omega), decide_eq_true (by omega)⟩
    have h2 : (flatRetrieve f https host path now).2 =
        flatCleanup f (expiredCountP f now) now := by
      simp only [flatRetrieve]
      rw [hexp, if_pos hcond]
    rw [h2]
    exact flatCleanup_perm f now
  · intro h
    have hcond : ¬ ((expiredCountP f now > 10 &&
        expiredCountP f now > f.length / 5) = true) := by
      rw [Bool.and_eq_true]
      intro hc
      obtain ⟨h1, h2⟩ := hc
      rw [decide_eq_true_eq] at h1 h2
      exact h ⟨by omega, by omega⟩
    simp only [flatRetrieve]
    rw [hexp, if_neg hcond]

/-- C8 counterexample: the claim's own instance fails.  A store of 10
entries with 6 expired has the expired fraction above a fifth, yet
retrieval leaves it untouched (still 10 records, the 6 expired ones
included), because compaction also demands strictly more than 10 expired
entries. -/
theorem flatRetrieve_compaction_counterexample :
    ten6Store.length = 10 ∧ expiredCountP ten6Store 10 = 6 ∧
    (flatRetrieve ten6Store true "h" "/" 10).2 = ten6Store ∧
    ¬ (flatRetrieve ten6Store true "h" "/" 10).2.length = 4 := by decide

theorem flatRetrieve_compaction_witness :
    (((flatRetrieve compactStore true "h" "/" 10).2.Perm
        (liveFilter compactStore 10) ∧
      ∀ c ∈ (flatRetrieve compactStore true "h" "/" 10).2,
        c.Expired 10 = false) ∧
    (flatRetrieve ten6Store true "h" "/" 10).2 = ten6Store) :=
  ⟨(flatRetrieve_compaction compactStore true "h" "/" 10).1 (by decide),
   (flatRetrieve_compaction ten6Store true "h" "/" 10).2 (by decide)⟩

theorem tripleMatch_eq_true_iff {d p n : String} {c : Cookie} :
    tripleMatch d p n c = true ↔ d = c.Domain ∧ p = c.Path ∧ n = c.Name := by
  unfold tripleMatch
  simp [Bool.and_eq_true, and_assoc]

theorem tripleMatch_comm (a b : Cookie) :
    tripleMatch a.Domain a.Path a.Name b = tripleMatch b.Domain b.Path b.Name a := by
  by_cases h : tripleMatch a.Domain a.Path a.Name b = true
  · obtain ⟨h1, h2, h3⟩ := tripleMatch_eq_true_iff.mp h
    rw [h, tripleMatch_eq_true_iff.mpr ⟨h1.symm, h2.symm, h3.symm⟩]
  · have hf : tripleMatch a.Domain a.Path a.Name b = false := Bool.eq_false_iff.mpr h
    have hf2 : tripleMatch b.Domain b.Path b.Name a = false := by
      rw [Bool.eq_false_iff]
      intro hb
      obtain ⟨h1, h2, h3⟩ := tripleMatch_eq_true_iff.mp hb
      exact h (tripleMatch_eq_true_iff.mpr ⟨h1.symm, h2.symm, h3.symm⟩)
    rw [hf, hf2]

theorem tripleMatch_trans {d p n : String} {a b : Cookie}
    (ha : tripleMatch d p n a = true) (hb : tripleMatch d p n b = true) :
    tripleMatch a.Domain a.Path a.Name b = true := by
  obtain ⟨a1, a2, a3⟩ := tripleMatch_eq_true_iff.mp ha
  obtain ⟨b1, b2, b3⟩ := tripleMatch_eq_true_iff.mp hb
  exact tripleMatch_eq_true_iff.mpr
    ⟨a1.symm.trans b1, a2.symm.trans b2, a3.symm.trans b3⟩

theorem noDupTriples_iff (f : flat) :
    noDupTriples f = true ↔
      f.Pairwise (fun a b => tripleMatch a.Domain a.Path a.Name b = false) := by
  induction f with
  | nil => simp [noDupTriples]
  | cons c rest ih =>
    rw [List.pairwise_cons, ← ih]
    simp only [noDupTriples, Bool.and_eq_true, List.all_eq_true, Bool.not_eq_eq_eq_not,
      Bool.not_true]

theorem tripleRel_symmetric :
    Symmetric (fun a b : Cookie => tripleMatch a.Domain a.Path a.Name b = false) := by
  intro a b hab
  rw [tripleMatch_comm]
  exact hab

theorem noDupTriples_perm {f g : flat} (hp : f.Perm g) (h : noDupTriples f = true) :
    noDupTriples g = true := by
  rw [noDupTriples_iff] at h ⊢
  exact (List.Perm.pairwise_iff (fun hab => tripleRel_symmetric hab) hp).mp h

theorem noDupTriples_sublist {f g : flat} (hs : g.Sublist f)
    (h : noDupTriples f = true) : noDupTriples g = true := by
  rw [noDupTriples_iff] at h ⊢
  exact h.sublist hs

theorem mem_take_getD {l : List Cookie} {a : Cookie} {m : Nat} (h : a ∈ l.take m) :
    ∃ k, k < m ∧ k < l.length ∧ l.getD k emptyCookie = a := by
  obtain ⟨k, hk, he⟩ := List.getElem_of_mem h
  have hk' : k < m ∧ k < l.length := by
    rw [List.length_take] at hk
    omega
  refine ⟨k, hk'.1, hk'.2, ?_⟩
  rw [List.getElem_take] at he
  rw [List.getD_eq_getElem?_getD, List.getElem?_eq_getElem hk'.2]
  exact he

theorem mem_drop_getD {l : List Cookie} {a : Cookie} {m : Nat} (h : a ∈ l.drop m) :
    ∃ k, m ≤ k ∧ k < l.length ∧ l.getD k emptyCookie = a := by
  obtain ⟨j, hj, he⟩ := List.getElem_of_mem h
  have hj' : m + j < l.length := by
    rw [List.length_drop] at hj
    omega
  refine ⟨m + j, by omega, hj', ?_⟩
  rw [List.getElem_drop] at he
  rw [List.getD_eq_getElem?_getD, List.getElem?_eq_getElem hj']
  exact he

theorem noDupTriples_set {f : flat} {i : Nat} {v : Cookie}
    (hi : i < f.length) (hf : noDupTriples f = true)
    (hv : ∀ k, k < f.length → k ≠ i →
      tripleMatch v.Domain v.Path v.Name (f.getD k emptyCookie) = false) :
    noDupTriples (f.set i v) = true := by
  rw [noDupTriples_iff] at hf ⊢
  have hdec : f = f.take i ++ f.getD i emptyCookie :: f.drop (i + 1) := by
    have h1 : f.getD i emptyCookie = f[i] := by
      rw [List.getD_eq_getElem?_getD, List.getElem?_eq_getElem hi]
      rfl
    rw [h1]
    rw [List.getElem_cons_drop]
    exact (List.take_append_drop i f).symm
  have hset : f.set i v = f.take i ++ v :: f.drop (i + 1) := by
    rw [List.set_eq_take_append_cons_drop, if_pos hi]
  rw [hset]
  rw [hdec, List.pairwise_append, List.pairwise_cons] at hf
  obtain ⟨h1, ⟨h2a, h2b⟩, h3⟩ := hf
  rw [List.pairwise_append, List.pairwise_cons]
  refine ⟨h1, ⟨?_, h2b⟩, ?_⟩
  · intro b hb
    obtain ⟨k, hk1, hk2, hk3⟩ := mem_drop_getD hb
    rw [← hk3]
    exact hv k hk2 (by omega)
  · intro a ha b hb
    rcases List.mem_cons.mp hb with hbv | hbd
    · subst hbv
      obtain ⟨k, hk1, hk2, hk3⟩ := mem_take_getD ha
      rw [tripleMatch_comm, ← hk3] at *
      exact hv k hk2 (by omega)
    · exact h3 a ha b (List.mem_cons_of_mem _ hbd)

theorem all_goodShape_set {f : flat} {i : Nat} {v : Cookie}
    (hf : f.all goodShape = true) (hv : goodShape v = true) :
    (f.set i v).all goodShape = true := by
  rw [List.all_eq_true] at hf ⊢
  intro c hc
  rcases List.mem_or_eq_of_mem_set hc with h | h
  · exact hf c h
  · rw [h]
    exact hv

theorem wfStore_iff {f : flat} :
    wfStore f = true ↔ f.all goodShape = true ∧ noDupTriples f = true := by
  unfold wfStore
  rw [Bool.and_eq_true]

theorem all_goodShape_of_subset {f g : flat}
    (hsub : ∀ c ∈ g, c ∈ f) (hf : f.all goodShape = true) :
    g.all goodShape = true := by
  rw [List.all_eq_true] at hf ⊢
  intro c hc
  exact hf c (hsub c hc)

theorem wfStore_flatDelete {f : flat} (d p n : String) (hf : wfStore f = true) :
    wfStore (flatDelete f d p n).2 = true := by
  rw [wfStore_iff] at hf ⊢
  obtain ⟨hs, hd⟩ := hf
  cases hcase : f.findIdx? (tripleMatch d p n) with
  | none =>
    rw [flatDelete_of_none hcase]
    exact ⟨hs, hd⟩
  | some i =>
    obtain ⟨-, hperm⟩ := flatDelete_of_some hcase
    constructor
    · refine all_goodShape_of_subset ?_ hs
      intro c hc
      have hce : c ∈ f.eraseIdx i := hperm.mem_iff.mp hc
      exact (List.eraseIdx_sublist f i).mem hce
    · refine noDupTriples_perm hperm.symm ?_
      exact noDupTriples_sublist (List.eraseIdx_sublist f i) hd

theorem toNat_ofNat_valid {n : Nat} (h : n.isValidChar) : (Char.ofNat n).toNat = n := by
  unfold Char.ofNat
  rw [dif_pos h]
  rfl

theorem toLower_ne_dot {c : Char} (h : ¬ c = '.') : ¬ Char.toLower c = '.' := by
  intro hc
  replace hc :
      (if c.toNat ≥ 65 ∧ c.toNat ≤ 90 then Char.ofNat (c.toNat + 32) else c) = '.' := hc
  by_cases hr : c.toNat ≥ 65 ∧ c.toNat ≤ 90
  · rw [if_pos hr] at hc
    have h2 : (Char.ofNat (c.toNat + 32)).toNat = ('.' : Char).toNat := by rw [hc]
    rw [toNat_ofNat_valid (Or.inl (by omega))] at h2
    have h3 : ('.' : Char).toNat = 46 := by decide
    omega
  · rw [if_neg hr] at hc
    exact h hc

theorem goToLower_head_ne_dot {s : String} (h : ¬ s.data.headD ' ' = '.') :
    ¬ (goToLower s).data.headD ' ' = '.' := by
  show ¬ (s.data.map Char.toLower).headD ' ' = '.'
  cases hs : s.data with
  | nil => simp
  | cons a t =>
    rw [hs, List.headD_cons] at h
    rw [List.map_cons, List.headD_cons]
    exact toLower_ne_dot h

theorem headD_take {l : List Char} {m : Nat} (hm : 0 < m) :
    (l.take m).headD ' ' = l.headD ' ' := by
  cases l with
  | nil => simp
  | cons a t =>
    cases m with
    | zero => omega
    | succ k => rw [List.take_succ_cons, List.headD_cons, List.headD_cons]

theorem defaultPath_head (path : String) : (defaultPath path).data.headD ' ' = '/' := by
  unfold defaultPath
  by_cases h1 : (path.data.length = 0 || path.data.headD ' ' ≠ '/') = true
  · rw [if_pos h1]
    rfl
  · rw [if_neg h1]
    have h2 : path.data.headD ' ' = '/' := by
      by_contra hne
      exact h1 (by rw [Bool.or_eq_true]; exact Or.inr (decide_eq_true hne))
    cases hL : lastIdxOf '/' path.data with
    | none => rfl
    | some i =>
      dsimp only
      by_cases hi : i = 0
      · rw [if_pos hi]
        rfl
      · rw [if_neg hi]
        show (path.data.take i).headD ' ' = '/'
        rw [headD_take (by omega)]
        exact h2

theorem resolveCookiePath_head (rc : RawCookie) (dp : String)
    (hdp : dp.data.headD ' ' = '/') :
    (resolveCookiePath rc dp).data.headD ' ' = '/' := by
  unfold resolveCookiePath
  by_cases h : (rc.Path.data.length = 0 || rc.Path.data.headD ' ' ≠ '/') = true
  · rw [if_pos h]
    exact hdp
  · rw [if_neg h]
    by_contra hne
    exact h (by rw [Bool.or_eq_true]; exact Or.inr (decide_eq_true hne))

theorem domainAndType_ok_head {cfg : JarConfig} {host attr : String} {dh : String × Bool}
    (hhost : ¬ host.data.headD ' ' = '.')
    (hok : domainAndType cfg host attr = Except.ok dh) :
    ¬ dh.1.data.headD ' ' = '.' := by
  unfold domainAndType at hok
  by_cases h1 : attr = ""
  · rw [if_pos h1] at hok
    cases hok
    exact hhost
  · rw [if_neg h1] at hok
    by_cases h2 : isIP host = true
    · rw [if_pos h2] at hok
      by_cases h3 : (cfg.HostCookieOnIP && attr = host) = true
      · rw [if_pos h3] at hok
        cases hok
        exact hhost
      · rw [if_neg h3] at hok
        exact Except.noConfusion hok
    · rw [if_neg h2] at hok
      replace hok :
          (if (stripDomainDot attr).data.length = 0 ||
              (stripDomainDot attr).data.headD ' ' = '.' then
            (Except.error CookieError.malformedDomain :
              Except CookieError (String × Bool))
          else if (goToLower (stripDomainDot attr)).data.getLast? = some '.' then
            Except.error CookieError.malformedDomain
          else if !containsDot (goToLower (stripDomainDot attr)) then
            Except.error CookieError.tldDomainCookie
          else if !cfg.DomainCookiesOnPublicSuffixes &&
              !allowDomainCookies (goToLower (stripDomainDot attr)) then
            if host = attr then Except.ok (host, true)
            else Except.error CookieError.illegalPSDomain
          else if host ≠ goToLower (stripDomainDot attr) &&
              !goEndsWith host.data ('.' :: (goToLower (stripDomainDot attr)).data) then
            Except.error CookieError.badDomain
          else Except.ok (goToLower (stripDomainDot attr), false)) = Except.ok dh := hok
      by_cases h3 : ((stripDomainDot attr).data.length = 0 ||
          (stripDomainDot attr).data.headD ' ' = '.') = true
      · rw [if_pos h3] at hok
        exact Except.noConfusion hok
      · rw [if_neg h3] at hok
        have hnd : ¬ (stripDomainDot attr).data.headD ' ' = '.' := by
          intro hd
          exact h3 (by rw [Bool.or_eq_true]; exact Or.inr (decide_eq_true hd))
        by_cases h4 : (goToLower (stripDomainDot attr)).data.getLast? = some '.'
        · rw [if_pos h4] at hok
          exact Except.noConfusion hok
        · rw [if_neg h4] at hok
          by_cases h5 : (!containsDot (goToLower (stripDomainDot attr))) = true
          · rw [if_pos h5] at hok
            exact Except.noConfusion hok
          · rw [if_neg h5] at hok
            by_cases h6 : (!cfg.DomainCookiesOnPublicSuffixes &&
                !allowDomainCookies (goToLower (stripDomainDot attr))) = true
            · rw [if_pos h6] at hok
              by_cases h7 : host = attr
              · rw [if_pos h7] at hok
                cases hok
                exact hhost
              · rw [if_neg h7] at hok
                exact Except.noConfusion hok
            · rw [if_neg h6] at hok
              by_cases h8 : (host ≠ goToLower (stripDomainDot attr) &&
                  !goEndsWith host.data
                    ('.' :: (goToLower (stripDomainDot attr)).data)) = true
              · rw [if_pos h8] at hok
                exact Except.noConfusion hok
              · rw [if_neg h8] at hok
                cases hok
                exact goToLower_head_ne_dot hnd

theorem noDupTriples_getD {f : flat} {d p n : String} (hd : noDupTriples f = true)
    {i k : Nat} (hi : i < f.length) (hk : k < f.length) (hne : ¬ i = k)
    (hmi : tripleMatch d p n (f.getD i emptyCookie) = true)
    (hmk : tripleMatch d p n (f.getD k emptyCookie) = true) : False := by
  rw [noDupTriples_iff, List.pairwise_iff_getElem] at hd
  have hgi : f.getD i emptyCookie = f[i] := by
    rw [List.getD_eq_getElem?_getD, List.getElem?_eq_getElem hi]
    rfl
  have hgk : f.getD k emptyCookie = f[k] := by
    rw [List.getD_eq_getElem?_getD, List.getElem?_eq_getElem hk]
    rfl
  by_cases hik : i < k
  · have hr := hd i k hi hk hik
    rw [← hgi, ← hgk] at hr
    rw [tripleMatch_trans hmi hmk] at hr
    exact Bool.noConfusion hr
  · have hr := hd k i hk hi (by omega)
    rw [← hgi, ← hgk] at hr
    rw [tripleMatch_trans hmk hmi] at hr
    exact Bool.noConfusion hr

theorem tripleMatch_congr {d p n : String} {v : Cookie}
    (htv : tripleMatch d p n v = true) (x : Cookie) :
    tripleMatch v.Domain v.Path v.Name x = tripleMatch d p n x := by
  obtain ⟨e1, e2, e3⟩ := tripleMatch_eq_true_iff.mp htv
  rw [← e1, ← e2, ← e3]

theorem wfStore_set_match {f : flat} {d p n : String} {i : Nat} {v : Cookie}
    (hf : wfStore f = true) (hi : i < f.length)
    (hslot : tripleMatch d p n (f.getD i emptyCookie) = true)
    (hv : goodShape v = true) (htv : tripleMatch d p n v = true) :
    wfStore (f.set i v) = true := by
  rw [wfStore_iff] at hf ⊢
  refine ⟨all_goodShape_set hf.1 hv, ?_⟩
  refine noDupTriples_set hi hf.2 ?_
  intro k hk hki
  rw [tripleMatch_congr htv]
  by_contra hc
  have hc' : tripleMatch d p n (f.getD k emptyCookie) = true := by
    cases h : tripleMatch d p n (f.getD k emptyCookie) with
    | false => exact absurd h hc
    | true => rfl
  exact noDupTriples_getD hf.2 hi hk (fun he => hki he.symm) hslot hc'

theorem wfStore_set_fresh {f : flat} {d p n : String} {i : Nat} {v : Cookie}
    (hf : wfStore f = true) (hi : i < f.length)
    (hnone : ∀ c ∈ f, tripleMatch d p n c = false)
    (hv : goodShape v = true) (htv : tripleMatch d p n v = true) :
    wfStore (f.set i v) = true := by
  rw [wfStore_iff] at hf ⊢
  refine ⟨all_goodShape_set hf.1 hv, ?_⟩
  refine noDupTriples_set hi hf.2 ?_
  intro k hk hki
  rw [tripleMatch_congr htv]
  exact hnone _ (getD_mem_of_lt emptyCookie hk)

theorem wfStore_append_fresh {f : flat} {d p n : String} {v : Cookie}
    (hf : wfStore f = true)
    (hnone : ∀ c ∈ f, tripleMatch d p n c = false)
    (hv : goodShape v = true) (htv : tripleMatch d p n v = true) :
    wfStore (f ++ [v]) = true := by
  rw [wfStore_iff] at hf ⊢
  constructor
  · rw [List.all_append, Bool.and_eq_true]
    refine ⟨hf.1, ?_⟩
    rw [List.all_eq_true]
    intro c hc
    rw [List.mem_singleton.mp hc]
    exact hv
  · rw [noDupTriples_iff, List.pairwise_append]
    refine ⟨(noDupTriples_iff f).mp hf.2, List.pairwise_singleton _ _, ?_⟩
    intro a ha b hb
    rw [List.mem_singleton.mp hb]
    rw [tripleMatch_comm, tripleMatch_congr htv]
    exact hnone a ha

theorem getD_append_self {l : List Cookie} {x : Cookie} :
    (l ++ [x]).getD l.length emptyCookie = x := by
  rw [List.getD_eq_getElem?_getD, List.getElem?_append_right (Nat.le_refl _)]
  simp

theorem set_append_self {l : List Cookie} {x v : Cookie} :
    (l ++ [x]).set l.length v = l ++ [v] := by
  rw [List.set_append_right _ _ (Nat.le_refl _)]
  simp

theorem goodShape_eq_true {c : Cookie} (h1 : ¬ c.Domain.data.headD ' ' = '.')
    (h2 : c.Path.data.headD ' ' = '/') : goodShape c = true := by
  unfold goodShape
  rw [Bool.and_eq_true]
  exact ⟨by rw [Bool.not_eq_true']; exact decide_eq_false h1, decide_eq_true h2⟩

theorem wfStore_jarUpdate (cfg : JarConfig) (f : flat) (host dp : String)
    (rc : RawCookie) (now : Nat)
    (hf : wfStore f = true) (hhost : ¬ host.data.headD ' ' = '.')
    (hdp : dp.data.headD ' ' = '/') :
    wfStore (jarUpdate cfg f host dp rc now).2 = true := by
  cases hdt : domainAndType cfg host rc.Domain with
  | error e =>
    have he : jarUpdate cfg f host dp rc now = (.invalidCookie, f) := by
      unfold jarUpdate
      rw [hdt]
    rw [he]
    exact hf
  | ok dh =>
    have hdom : ¬ dh.1.data.headD ' ' = '.' := domainAndType_ok_head hhost hdt
    have hpath : (resolveCookiePath rc dp).data.headD ' ' = '/' :=
      resolveCookiePath_head rc dp hdp
    unfold jarUpdate
    rw [hdt]
    dsimp only
    by_cases hdel : (resolveExpiration rc now).1 = true
    · rw [if_pos hdel]
      by_cases hdd :
          (flatDelete f dh.1 (resolveCookiePath rc dp) rc.Name).1 = true
      · rw [if_pos hdd]
        exact wfStore_flatDelete _ _ _ hf
      · rw [if_neg hdd]
        exact wfStore_flatDelete _ _ _ hf
    · rw [if_neg hdel]
      cases hc1 :
          f.findIdx? (tripleMatch dh.1 (resolveCookiePath rc dp) rc.Name) with
      | some i =>
        have hff : flatFind f dh.1 (resolveCookiePath rc dp) rc.Name now = (i, f) := by
          unfold flatFind
          rw [hc1]
        rw [hff]
        dsimp only
        obtain ⟨hi, hmi, -⟩ := findIdx?_some_spec emptyCookie hc1
        by_cases hnm : (f.getD i emptyCookie).Name.data.length = 0
        · rw [if_pos hnm]
          refine wfStore_set_match hf hi hmi ?_ ?_
          · exact goodShape_eq_true hdom hpath
          · exact tripleMatch_eq_true_iff.mpr ⟨rfl, rfl, rfl⟩
        · rw [if_neg hnm]
          refine wfStore_set_match hf hi hmi ?_ hmi
          have hall := (wfStore_iff.mp hf).1
          rw [List.all_eq_true] at hall
          have hold : goodShape (f.getD i emptyCookie) = true :=
            hall _ (getD_mem_of_lt emptyCookie hi)
          exact hold
      | none =>
        have hnone := List.findIdx?_eq_none_iff.mp hc1
        cases hc2 : f.findIdx? (fun c => c.Expired now) with
        | some i =>
          have hff : flatFind f dh.1 (resolveCookiePath rc dp) rc.Name now =
              (i, f.set i { f.getD i emptyCookie with Name := "" }) := by
            unfold flatFind
            rw [hc1]
            dsimp only
            rw [hc2]
          rw [hff]
          dsimp only
          obtain ⟨hi, -, -⟩ := findIdx?_some_spec emptyCookie hc2
          rw [getD_set_self emptyCookie f i _ hi]
          rw [if_pos (by rfl :
            ({ f.getD i emptyCookie with Name := "" } : Cookie).Name.data.length = 0)]
          rw [List.set_set]
          refine wfStore_set_fresh hf hi hnone ?_ ?_
          · exact goodShape_eq_true hdom hpath
          · exact tripleMatch_eq_true_iff.mpr ⟨rfl, rfl, rfl⟩
        | none =>
          have hff : flatFind f dh.1 (resolveCookiePath rc dp) rc.Name now =
              (f.length, f ++ [emptyCookie]) := by
            unfold flatFind
            rw [hc1]
            dsimp only
            rw [hc2]
          rw [hff]
          dsimp only
          rw [getD_append_self]
          rw [if_pos (by rfl : (emptyCookie : Cookie).Name.data.length = 0)]
          rw [set_append_self]
          refine wfStore_append_fresh hf hnone ?_ ?_
          · exact goodShape_eq_true hdom hpath
          · exact tripleMatch_eq_true_iff.mpr ⟨rfl, rfl, rfl⟩

theorem wfStore_flatFind_set {f : flat} {d p n : String} {now : Nat} {v : Cookie}
    (hf : wfStore f = true) (hv : goodShape v = true)
    (htv : tripleMatch d p n v = true) :
    wfStore ((flatFind f d p n now).2.set (flatFind f d p n now).1 v) = true := by
  cases hc1 : f.findIdx? (tripleMatch d p n) with
  | some i =>
    have hff : flatFind f d p n now = (i, f) := by
      unfold flatFind
      rw [hc1]
    rw [hff]
    obtain ⟨hi, hmi, -⟩ := findIdx?_some_spec emptyCookie hc1
    exact wfStore_set_match hf hi hmi hv htv
  | none =>
    have hnone := List.findIdx?_eq_none_iff.mp hc1
    cases hc2 : f.findIdx? (fun c => c.Expired now) with
    | some i =>
      have hff : flatFind f d p n now =
          (i, f.set i { f.getD i emptyCookie with Name := "" }) := by
        unfold flatFind
        rw [hc1]
        dsimp only
        rw [hc2]
      rw [hff]
      obtain ⟨hi, -, -⟩ := findIdx?_some_spec emptyCookie hc2
      dsimp only
      rw [List.set_set]
      exact wfStore_set_fresh hf hi hnone hv htv
    | none =>
      have hff : flatFind f d p n now = (f.length, f ++ [emptyCookie]) := by
        unfold flatFind
        rw [hc1]
        dsimp only
        rw [hc2]
      rw [hff]
      dsimp only
      rw [set_append_self]
      exact wfStore_append_fresh hf hnone hv htv

theorem wfStore_setLoop (cfg : JarConfig) (host dpath : String) (now : Nat)
    (hhost : ¬ host.data.headD ' ' = '.') (hdp : dpath.data.headD ' ' = '/') :
    ∀ (cookies : List RawCookie) (f : flat), wfStore f = true →
      wfStore (cookies.foldl (fun acc c =>
        if cfg.MaxBytesPerCookie > 0 &&
           (c.Name.data.length + c.Value.data.length : Int) > cfg.MaxBytesPerCookie then
          acc
        else (jarUpdate cfg acc host dpath c now).2) f) = true := by
  intro cookies
  induction cookies with
  | nil =>
    intro f hf
    exact hf
  | cons c rest ih =>
    intro f hf
    rw [List.foldl_cons]
    by_cases hsz : (cfg.MaxBytesPerCookie > 0 &&
        ((c.Name.data.length + c.Value.data.length : Int) > cfg.MaxBytesPerCookie)) = true
    · dsimp only
      rw [if_pos hsz]
      exact ih f hf
    · dsimp only
      rw [if_neg hsz]
      exact ih _ (wfStore_jarUpdate cfg f host dpath c now hf hhost hdp)

theorem wfStore_jarSetCookies (cfg : JarConfig) (f : flat) (host upath : String)
    (cookies : List RawCookie) (now : Nat)
    (hf : wfStore f = true) (hhost : ¬ host.data.headD ' ' = '.') :
    wfStore (jarSetCookies cfg f host upath cookies now) = true := by
  unfold jarSetCookies
  exact wfStore_setLoop cfg host (defaultPath upath) now hhost (defaultPath_head upath)
    cookies f hf

theorem wfStore_jarAdd (now : Nat) :
    ∀ (cookies : List Cookie) (f : flat), wfStore f = true →
      (∀ c ∈ cookies, goodShape c = true) →
      wfStore (jarAdd f cookies now) = true := by
  intro cookies
  induction cookies with
  | nil =>
    intro f hf _
    exact hf
  | cons c rest ih =>
    intro f hf hg
    unfold jarAdd
    rw [List.foldl_cons]
    by_cases he : c.Expired now = true
    · dsimp only
      rw [if_pos he]
      exact ih f hf (fun d hd => hg d (List.mem_cons_of_mem _ hd))
    · dsimp only
      rw [if_neg he]
      exact ih _
        (wfStore_flatFind_set hf (hg c (List.mem_cons_self _ _))
          (tripleMatch_eq_true_iff.mpr ⟨rfl, rfl, rfl⟩))
        (fun d hd => hg d (List.mem_cons_of_mem _ hd))

theorem wfStore_jarRemove (f : flat) (domain path name : String)
    (hf : wfStore f = true) : wfStore (jarRemove f domain path name).2 = true := by
  unfold jarRemove
  exact wfStore_flatDelete _ _ _ hf

theorem flatRetrieve_snd_cases (f : flat) (https : Bool) (host path : String)
    (now : Nat) :
    (flatRetrieve f https host path now).2 = f ∨
    ((flatRetrieve f https host path now).2.Perm (liveFilter f now)) := by
  have hexp : (f.filter (fun c => c.Expired now)).length = expiredCountP f now :=
    (List.countP_eq_length_filter _ _).symm
  simp only [flatRetrieve]
  rw [hexp]
  by_cases hc : (expiredCountP f now > 10 && expiredCountP f now > f.length / 5) = true
  · rw [if_pos hc]
    exact Or.inr (flatCleanup_perm f now).1
  · rw [if_neg hc]
    exact Or.inl rfl

theorem wfStore_of_perm_liveFilter {g f : flat} {now : Nat}
    (hp : g.Perm (liveFilter f now)) (hf : wfStore f = true) : wfStore g = true := by
  rw [wfStore_iff] at hf ⊢
  constructor
  · refine all_goodShape_of_subset ?_ hf.1
    intro c hc
    have hcf : c ∈ liveFilter f now := hp.mem_iff.mp hc
    exact List.mem_of_mem_filter hcf
  · exact noDupTriples_perm hp.symm
      (noDupTriples_sublist (List.filter_sublist f) hf.2)

theorem wfStore_map_triple {f : flat} {g : Cookie → Cookie}
    (hg : ∀ c, (g c).Domain = c.Domain ∧ (g c).Path = c.Path ∧ (g c).Name = c.Name)
    (hf : wfStore f = true) : wfStore (f.map g) = true := by
  rw [wfStore_iff] at hf ⊢
  constructor
  · rw [List.all_eq_true]
    intro c hc
    obtain ⟨a, ha, hae⟩ := List.mem_map.mp hc
    have hgs : goodShape (g a) = goodShape a := by
      unfold goodShape
      rw [(hg a).1, (hg a).2.1]
    rw [← hae, hgs]
    have hall := hf.1
    rw [List.all_eq_true] at hall
    exact hall a ha
  · rw [noDupTriples_iff]
    have hd := (noDupTriples_iff f).mp hf.2
    refine List.Pairwise.map g ?_ hd
    intro a b hab
    have h1 : tripleMatch (g a).Domain (g a).Path (g a).Name (g b) =
        tripleMatch a.Domain a.Path a.Name b := by
      unfold tripleMatch
      rw [(hg a).1, (hg a).2.1, (hg a).2.2, (hg b).1, (hg b).2.1, (hg b).2.2]
    rw [h1]
    exact hab

theorem wfStore_jarCookies (f : flat) (https : Bool) (host upath : String)
    (now : Nat) (hf : wfStore f = true) :
    wfStore (jarCookies f https host upath now).2 = true := by
  unfold jarCookies
  dsimp only
  have hret : wfStore
      (flatRetrieve f https host (if upath = "" then "/" else upath) now).2 = true := by
    rcases flatRetrieve_snd_cases f https host (if upath = "" then "/" else upath) now
      with h | h
    · rw [h]
      exact hf
    · exact wfStore_of_perm_liveFilter h hf
  refine wfStore_map_triple ?_ hret
  intro c
  dsimp only
  split
  · exact ⟨rfl, rfl, rfl⟩
  · exact ⟨rfl, rfl, rfl⟩

/-- C4: the store invariant — every record's Domain free of a leading
".", every record's Path non-empty and starting with "/", at most one
record per (Domain, Path, Name) triple, a re-received triple
overwriting in place — is preserved by SetCookies (for a canonical
request host without a leading dot), by Cookies, by Remove, and by Add
when the supplied records are themselves well-shaped.  The claim's
unconditional form fails at Add, which bulk-loads records verbatim: see
the counterexample. -/
theorem jar_invariant (cfg : JarConfig) (f : flat) (host upath : String)
    (received : List RawCookie) (https : Bool) (domain path name : String)
    (adds : List Cookie) (now : Nat)
    (hf : wfStore f = true) (hhost : ¬ host.data.headD ' ' = '.')
    (hadds : ∀ c ∈ adds, goodShape c = true) :
    wfStore (jarSetCookies cfg f host upath received now) = true ∧
    wfStore (jarCookies f https host upath now).2 = true ∧
    wfStore (jarAdd f adds now) = true ∧
    wfStore (jarRemove f domain path name).2 = true :=
  ⟨wfStore_jarSetCookies cfg f host upath received now hf hhost,
   wfStore_jarCookies f https host upath now hf,
   wfStore_jarAdd now adds f hf hadds,
   wfStore_jarRemove f domain path name hf⟩

/-- C4 counterexample: `Add` stores an unsanitised record verbatim — a
leading-dot Domain and an empty Path land in the store unchanged, so the
invariant is not preserved by every operation unconditionally. -/
theorem jar_invariant_counterexample :
    wfStore [] = true ∧
    jarAdd [] [badAddCookie] 0 = [badAddCookie] ∧
    wfStore (jarAdd [] [badAddCookie] 0) = false := by decide

theorem jar_invariant_witness :
    wfStore (jarSetCookies NewJarConfig [] "example.com" "/" [mkRaw "a" "v" "/x"] 5)
      = true ∧
    wfStore (jarCookies [] true "example.com" "/" 5).2 = true ∧
    wfStore (jarAdd []
      [{ emptyCookie with Name := "n", Domain := "x.com", Path := "/" }] 5) = true ∧
    wfStore (jarRemove [] "x.com" "/" "n").2 = true :=
  jar_invariant NewJarConfig [] "example.com" "/" [mkRaw "a" "v" "/x"] true
    "x.com" "/" "n"
    [{ emptyCookie with Name := "n", Domain := "x.com", Path := "/" }] 5
    (by decide) (by decide) (by decide)

theorem boxedLookup_of_mem {b : boxed} {kv : String × flat}
    (hnd : (b.map Prod.fst).Nodup) (hm : kv ∈ b) :
    boxedLookup b kv.1 = some kv.2 := by
  induction b with
  | nil => cases hm
  | cons hd tl ih =>
    rw [List.map_cons, List.nodup_cons] at hnd
    rcases List.mem_cons.mp hm with he | hm'
    · subst he
      simp [boxedLookup]
    · unfold boxedLookup
      rw [List.find?_cons_of_neg]
      · exact ih hnd.2 hm'
      · intro hcc
        have he : hd.1 = kv.1 := of_decide_eq_true hcc
        refine hnd.1 ?_
        rw [he]
        exact List.mem_map_of_mem Prod.fst hm'

theorem mem_f_bucket {b : boxed} {f : flat} (hrep : BoxedRep b f) {c : Cookie}
    (hc : c ∈ f) : ∃ kv ∈ b, c ∈ kv.2 ∧ kv.1 = bucketKey c.Domain := by
  have hj : c ∈ (b.map Prod.snd).join := hrep.2.2.mem_iff.mpr hc
  rw [List.mem_join] at hj
  obtain ⟨l, hl, hcl⟩ := hj
  obtain ⟨kv, hkv, rfl⟩ := List.mem_map.mp hl
  exact ⟨kv, hkv, hcl, (hrep.1 kv hkv c hcl).symm⟩

theorem bucket_sub_f {b : boxed} {f : flat} (hrep : BoxedRep b f)
    {kv : String × flat} (hkv : kv ∈ b) : ∀ c ∈ kv.2, c ∈ f := by
  intro c hc
  refine hrep.2.2.mem_iff.mp ?_
  rw [List.mem_join]
  exact ⟨kv.2, List.mem_map_of_mem Prod.snd hkv, hc⟩

theorem boxedFlat_none_no_match {b : boxed} {f : flat} (hrep : BoxedRep b f)
    {d p n : String} (hg : boxedFlat b d = none) :
    ∀ c ∈ f, tripleMatch d p n c = false := by
  intro c hc
  cases hm : tripleMatch d p n c with
  | false => rfl
  | true =>
    exfalso
    obtain ⟨hd, -, -⟩ := tripleMatch_eq_true_iff.mp hm
    obtain ⟨kv, hkv, hckv, hk⟩ := mem_f_bucket hrep hc
    unfold boxedFlat boxedLookup at hg
    rw [Option.map_eq_none'] at hg
    have hnf := List.find?_eq_none.mp hg kv hkv
    refine hnf (decide_eq_true ?_)
    rw [hk, ← hd]

theorem boxedFlat_match_bucket {b : boxed} {f : flat} (hrep : BoxedRep b f)
    {d p n : String} {g : flat} (hg : boxedFlat b d = some g) {c : Cookie}
    (hc : c ∈ f) (hm : tripleMatch d p n c = true) : c ∈ g := by
  obtain ⟨hd, -, -⟩ := tripleMatch_eq_true_iff.mp hm
  obtain ⟨kv, hkv, hckv, hk⟩ := mem_f_bucket hrep hc
  have hlk : boxedLookup b kv.1 = some kv.2 := boxedLookup_of_mem hrep.2.1 hkv
  have he : boxedLookup b (bucketKey d) = some kv.2 := by
    rw [hd, ← hk]
    exact hlk
  unfold boxedFlat at hg
  rw [he] at hg
  cases hg
  exact hckv

theorem unique_match {f : flat} (hnd : noDupTriples f = true) {d p n : String}
    {c c' : Cookie} (hc : c ∈ f) (hc' : c' ∈ f)
    (hm : tripleMatch d p n c = true) (hm' : tripleMatch d p n c' = true) :
    c = c' := by
  obtain ⟨i, hi, hie⟩ := List.getElem_of_mem hc
  obtain ⟨j, hj, hje⟩ := List.getElem_of_mem hc'
  have hgi : f.getD i emptyCookie = c := by
    rw [List.getD_eq_getElem?_getD, List.getElem?_eq_getElem hi]
    exact hie
  have hgj : f.getD j emptyCookie = c' := by
    rw [List.getD_eq_getElem?_getD, List.getElem?_eq_getElem hj]
    exact hje
  by_cases hij : i = j
  · subst hij
    exact hie.symm.trans hje
  · exact (noDupTriples_getD hnd hi hj hij
      (by rw [hgi]; exact hm) (by rw [hgj]; exact hm')).elim

theorem storedCookie_boxed_agree {b : boxed} {f : flat} (hrep : BoxedRep b f)
    (hnd : noDupTriples f = true) (d p n : String) :
    storedCookie f d p n = storedCookie ((boxedFlat b d).getD []) d p n := by
  cases hbf : boxedFlat b d with
  | none =>
    have hno := boxedFlat_none_no_match (p := p) (n := n) hrep hbf
    have hl : storedCookie f d p n = none := by
      unfold storedCookie
      rw [List.find?_eq_none]
      intro c hc hpc
      rw [hno c hc] at hpc
      exact Bool.noConfusion hpc
    rw [hl]
    rfl
  | some g =>
    show storedCookie f d p n = storedCookie g d p n
    obtain ⟨kv, hkvf, hkve⟩ := Option.map_eq_some'.mp hbf
    have hkvb : kv ∈ b := List.mem_of_find?_eq_some hkvf
    have hsub : ∀ c ∈ g, c ∈ f := by
      intro c hc
      refine bucket_sub_f hrep hkvb c ?_
      rw [hkve]
      exact hc
    cases hgf : storedCookie g d p n with
    | some c =>
      have hcg : c ∈ g := List.mem_of_find?_eq_some hgf
      have hmc : tripleMatch d p n c = true := List.find?_some hgf
      have hcf : c ∈ f := hsub c hcg
      cases hff : storedCookie f d p n with
      | none =>
        exact absurd hmc (List.find?_eq_none.mp hff c hcf)
      | some e =>
        have hef : e ∈ f := List.mem_of_find?_eq_some hff
        have hme : tripleMatch d p n e = true := List.find?_some hff
        rw [unique_match hnd hef hcf hme hmc]
    | none =>
      cases hff : storedCookie f d p n with
      | none => rfl
      | some e =>
        have hef : e ∈ f := List.mem_of_find?_eq_some hff
        have hme : tripleMatch d p n e = true := List.find?_some hff
        have heg : e ∈ g := boxedFlat_match_bucket hrep hbf hef hme
        exact absurd hme (List.find?_eq_none.mp hgf e heg)

theorem flatDelete_fst_isSome (f : flat) (d p n : String) :
    (flatDelete f d p n).1 = (f.findIdx? (tripleMatch d p n)).isSome := by
  unfold flatDelete
  cases h : f.findIdx? (tripleMatch d p n) with
  | none => rfl
  | some i =>
    dsimp only
    split
    · rfl
    · rfl

theorem findIdx?_isSome_iff {p : Cookie → Bool} {l : List Cookie} :
    (l.findIdx? p).isSome = true ↔ ∃ c ∈ l, p c = true := by
  cases h : l.findIdx? p with
  | none =>
    simp only [Option.isSome_none]
    constructor
    · intro hf
      exact Bool.noConfusion hf
    · rintro ⟨c, hc, hpc⟩
      rw [List.findIdx?_eq_none_iff.mp h c hc] at hpc
      exact Bool.noConfusion hpc
  | some i =>
    obtain ⟨hi, hpi, -⟩ := findIdx?_some_spec emptyCookie h
    simp only [Option.isSome_some]
    exact iff_of_true trivial ⟨_, getD_mem_of_lt emptyCookie hi, hpi⟩

theorem flatDelete_boxed_agree {b : boxed} {f : flat} (hrep : BoxedRep b f)
    (d p n : String) :
    (flatDelete f d p n).1 = (boxedDelete b d p n).1 := by
  cases hbf : boxedFlat b d with
  | none =>
    have hno := boxedFlat_none_no_match (p := p) (n := n) hrep hbf
    have h1 : (flatDelete f d p n).1 = false := by
      rw [flatDelete_fst_isSome]
      cases hidx : f.findIdx? (tripleMatch d p n) with
      | none => rfl
      | some i =>
        obtain ⟨hi, hpi, -⟩ := findIdx?_some_spec emptyCookie hidx
        rw [hno _ (getD_mem_of_lt emptyCookie hi)] at hpi
        exact Bool.noConfusion hpi
    unfold boxedDelete
    rw [hbf, h1]
  | some g =>
    unfold boxedDelete
    rw [hbf]
    dsimp only
    rw [flatDelete_fst_isSome, flatDelete_fst_isSome]
    obtain ⟨kv, hkvf, hkve⟩ := Option.map_eq_some'.mp hbf
    have hkvb : kv ∈ b := List.mem_of_find?_eq_some hkvf
    have hsub : ∀ c ∈ g, c ∈ f := by
      intro c hc
      refine bucket_sub_f hrep hkvb c ?_
      rw [hkve]
      exact hc
    rw [Bool.eq_iff_iff, findIdx?_isSome_iff, findIdx?_isSome_iff]
    constructor
    · rintro ⟨c, hc, hm⟩
      exact ⟨c, boxedFlat_match_bucket hrep hbf hc hm, hm⟩
    · rintro ⟨c, hc, hm⟩
      exact ⟨c, hsub c hc, hm⟩

theorem join_filter_none (K : String) (p : Cookie → Bool) (b : boxed)
    (hrep1 : ∀ kv ∈ b, ∀ c ∈ kv.2, bucketKey c.Domain = kv.1)
    (hK : ∀ kv ∈ b, ∀ c ∈ kv.2, p c = true → bucketKey c.Domain = K)
    (hlk : boxedLookup b K = none) :
    ((b.map Prod.snd).join).filter p = [] := by
  rw [List.filter_eq_nil_iff]
  intro c hc hpc
  rw [List.mem_join] at hc
  obtain ⟨l, hl, hcl⟩ := hc
  obtain ⟨kv, hkv, rfl⟩ := List.mem_map.mp hl
  have h1 := hrep1 kv hkv c hcl
  have h2 := hK kv hkv c hcl hpc
  unfold boxedLookup at hlk
  rw [Option.map_eq_none'] at hlk
  exact List.find?_eq_none.mp hlk kv hkv (decide_eq_true (h1.symm.trans h2))

theorem join_filter_bucket (K : String) (p : Cookie → Bool) :
    ∀ (b : boxed) (g : flat),
      (∀ kv ∈ b, ∀ c ∈ kv.2, bucketKey c.Domain = kv.1) →
      ((b.map Prod.fst).Nodup) →
      (∀ kv ∈ b, ∀ c ∈ kv.2, p c = true → bucketKey c.Domain = K) →
      boxedLookup b K = some g →
      ((b.map Prod.snd).join).filter p = g.filter p := by
  intro b
  induction b with
  | nil =>
    intro g _ _ _ h
    exact Option.noConfusion h
  | cons kv tl ih =>
    intro g hrep1 hnd hK hlk
    rw [List.map_cons, List.nodup_cons] at hnd
    rw [List.map_cons]
    rw [show ((kv.2 :: tl.map Prod.snd).join) = kv.2 ++ (tl.map Prod.snd).join from rfl]
    rw [List.filter_append]
    by_cases hk : kv.1 = K
    · have hg : g = kv.2 := by
        have hfind : (List.find? (fun x : String × flat => decide (x.1 = K)) (kv :: tl))
            = some kv := by
          have hp : (fun x : String × flat => decide (x.1 = K)) kv = true :=
            decide_eq_true hk
          exact List.find?_cons_of_pos _ hp
        unfold boxedLookup at hlk
        rw [hfind, Option.map_some'] at hlk
        cases hlk
        rfl
      have htl : ((tl.map Prod.snd).join).filter p = [] := by
        rw [List.filter_eq_nil_iff]
        intro c hc hpc
        rw [List.mem_join] at hc
        obtain ⟨l, hl, hcl⟩ := hc
        obtain ⟨kv', hkv', rfl⟩ := List.mem_map.mp hl
        have h1 := hrep1 kv' (List.mem_cons_of_mem _ hkv') c hcl
        have h2 := hK kv' (List.mem_cons_of_mem _ hkv') c hcl hpc
        refine hnd.1 ?_
        rw [show kv.1 = kv'.1 from hk.trans (h2.symm.trans h1)]
        exact List.mem_map_of_mem Prod.fst hkv'
      rw [htl, hg, List.append_nil]
    · have hhd : kv.2.filter p = [] := by
        rw [List.filter_eq_nil_iff]
        intro c hc hpc
        have h1 := hrep1 kv (List.mem_cons_self _ _) c hc
        have h2 := hK kv (List.mem_cons_self _ _) c hc hpc
        exact hk (h1.symm.trans h2)
      have hlk' : boxedLookup tl K = some g := by
        unfold boxedLookup at hlk ⊢
        rw [List.find?_cons_of_neg] at hlk
        · exact hlk
        · intro hcc
          exact hk (of_decide_eq_true hcc)
      rw [hhd, List.nil_append]
      exact ih g (fun kv' h => hrep1 kv' (List.mem_cons_of_mem _ h)) hnd.2
        (fun kv' h => hK kv' (List.mem_cons_of_mem _ h)) hlk'

theorem retrieve_boxed_agree {b : boxed} {f : flat} (hrep : BoxedRep b f)
    (https : Bool) (host path : String) (now : Nat)
    (hbk : ∀ c ∈ f, (!c.Expired now && c.shouldSend https host path) = true →
      bucketKey c.Domain = bucketKey host) :
    (flatRetrieve f https host path now).1.Perm
      (boxedRetrieve b https host path now).1 := by
  rw [flatRetrieve_fst]
  have hjf : (((b.map Prod.snd).join).filter
      (fun c => !c.Expired now && c.shouldSend https host path)).Perm
      (f.filter (fun c => !c.Expired now && c.shouldSend https host path)) :=
    hrep.2.2.filter _
  have hKb : ∀ kv ∈ b, ∀ c ∈ kv.2,
      (!c.Expired now && c.shouldSend https host path) = true →
      bucketKey c.Domain = bucketKey host :=
    fun kv hkv c hc hpc => hbk c (bucket_sub_f hrep hkv c hc) hpc
  unfold boxedRetrieve
  cases hbf : boxedFlat b host with
  | none =>
    dsimp only
    have h0 := join_filter_none (bucketKey host)
      (fun c => !c.Expired now && c.shouldSend https host path) b hrep.1 hKb hbf
    rw [h0] at hjf
    exact hjf.symm
  | some g =>
    dsimp only
    rw [flatRetrieve_fst]
    have hg := join_filter_bucket (bucketKey host)
      (fun c => !c.Expired now && c.shouldSend https host path) b g hrep.1 hrep.2.1
      hKb hbf
    rw [hg] at hjf
    exact hjf.symm

/-- C6: on the same cookie data (`BoxedRep`, the domain-sharded store
holding exactly the flat store's records bucketed by key), the two
storage strategies agree on lookup of an identity triple and on the
delete outcome; the retrieve candidate sets agree whenever every
candidate's domain shards into the request host's bucket, but not in
general — a domain cookie whose domain lies in a different shard than a
matching host is returned by the flat strategy and missed by the boxed
one (see the counterexample), so the strategies are not observably
interchangeable. -/
theorem storage_equivalence (b : boxed) (f : flat) (d p n host path : String)
    (https : Bool) (now : Nat)
    (hrep : BoxedRep b f) (hnd : noDupTriples f = true)
    (hbk : ∀ c ∈ f, (!c.Expired now && c.shouldSend https host path) = true →
      bucketKey c.Domain = bucketKey host) :
    storedCookie f d p n = storedCookie ((boxedFlat b d).getD []) d p n ∧
    (flatDelete f d p n).1 = (boxedDelete b d p n).1 ∧
    (flatRetrieve f https host path now).1.Perm
      (boxedRetrieve b https host path now).1 :=
  ⟨storedCookie_boxed_agree hrep hnd d p n,
   flatDelete_boxed_agree hrep d p n,
   retrieve_boxed_agree hrep https host path now hbk⟩

/-- C6 counterexample: the boxed strategy misses cross-bucket domain
matches.  The stores hold the same single cookie (domain `c.cy`,
bucketed under its own key), yet a retrieve for host `b.c.cy` — which
domain-matches the cookie but shards into bucket `b.c.cy` — returns the
cookie from the flat store and nothing from the boxed store. -/
theorem storage_equivalence_counterexample :
    BoxedRep [("c.cy", [crossCookie])] [crossCookie] ∧
    (flatRetrieve [crossCookie] true "b.c.cy" "/" 5).1 = [crossCookie] ∧
    (boxedRetrieve [("c.cy", [crossCookie])] true "b.c.cy" "/" 5).1 = [] :=
  ⟨⟨by decide, by decide, List.Perm.refl _⟩, by decide, by decide⟩

theorem storage_equivalence_witness :
    (storedCookie [crossCookie] "c.cy" "/" "x" =
      storedCookie ((boxedFlat [("c.cy", [crossCookie])] "c.cy").getD [])
        "c.cy" "/" "x") ∧
    ((flatDelete [crossCookie] "c.cy" "/" "x").1 =
      (boxedDelete [("c.cy", [crossCookie])] "c.cy" "/" "x").1) ∧
    (flatRetrieve [crossCookie] true "c.cy" "/" 5).1.Perm
      (boxedRetrieve [("c.cy", [crossCookie])] true "c.cy" "/" 5).1 :=
  storage_equivalence [("c.cy", [crossCookie])] [crossCookie] "c.cy" "/" "x"
    "c.cy" "/" true 5
    ⟨by decide, by decide, List.Perm.refl _⟩ (by decide) (by decide)

end CookieJar
